import Mathlib

/-!
Verification development for the vim-flavoured text-editing core of this
repository.  The text-buffer reducer `handleVimAction`, the modal input
controller, the history navigator and the confirmation waiter are embedded
shallowly: strings are lists of Unicode code points (`List Char`), state is a
record, and every operation is an executable Lean function translated from the
TypeScript source.  Primitives that live in `text-buffer.ts` (which is not part
of the extracted sources) are modelled from the specification and marked as
such in their doc comments.
-/

namespace GCli

/-- Strings are modelled as lists of Unicode code points, matching the
specification's requirement that all cursor arithmetic is in code points. -/
abbrev Str := List Char

/-- Code-point length of a string (`cpLen` in `textUtils.ts`). -/
def cpLen (s : Str) : Nat := s.length

/-- Code-point slice `[start, stop)` (`cpSlice` in `textUtils.ts`). -/
def cpSlice (s : Str) (start stop : Nat) : Str := (s.drop start).take (stop - start)

/-- Code-point slice from `start` to the end of the string. -/
def cpSliceFrom (s : Str) (start : Nat) : Str := s.drop start

/-- Reading a line of the buffer; out-of-range rows read as the empty string,
mirroring the `lines[row] || ''` pattern used throughout the source. -/
def lineAt (lines : List Str) (r : Nat) : Str := lines.getD r []

/-- Reading one code point of a line; out-of-range columns read as U+0000,
which is neither a word character nor a combining mark nor a bracket. -/
def charAt (s : Str) (i : Nat) : Char := s.getD i '\x00'

/-- Length of a line of the buffer. -/
def lineLen (lines : List Str) (r : Nat) : Nat := (lineAt lines r).length

/-- Splitting a string at newline characters, as JavaScript, so that the
result is never empty and a trailing newline yields a trailing empty part. -/
def splitNl : Str → List Str
  | [] => [[]]
  | c :: rest =>
    let r := splitNl rest
    if c = '\n' then [] :: r
    else
      match r with
      | [] => [[c]]
      | h :: t => (c :: h) :: t

/-- One full snapshot of the buffer excluding the undo stack itself, as the
specification requires for undo entries. -/
structure UndoEntry where
  lines : List Str
  cursorRow : Nat
  cursorCol : Nat
  preferredCol : Option Nat
  selectionAnchor : Option (Nat × Nat)
  clipboard : Str
  lastSearchQuery : Str
deriving Repr, DecidableEq

/-- The text-buffer state of section 3 of the specification.  `lastSearchQuery`
and `clipboard` use the empty string for "unset", matching the JavaScript
falsiness checks (`if (!clipboard)`, `if (!lastSearchQuery)`) in the source. -/
structure TextBufferState where
  lines : List Str
  cursorRow : Nat
  cursorCol : Nat
  preferredCol : Option Nat
  selectionAnchor : Option (Nat × Nat)
  clipboard : Str
  lastSearchQuery : Str
  undoStack : List UndoEntry
deriving Repr, DecidableEq

/-- Snapshot of a state, used by `pushUndo`. -/
def undoEntryOf (s : TextBufferState) : UndoEntry :=
  { lines := s.lines, cursorRow := s.cursorRow, cursorCol := s.cursorCol,
    preferredCol := s.preferredCol, selectionAnchor := s.selectionAnchor,
    clipboard := s.clipboard, lastSearchQuery := s.lastSearchQuery }

/-- Modelled from the spec: `pushUndo` of `text-buffer.ts` (not in the
extracted sources) appends the pre-image to the bounded undo stack
(100 entries, overflow discards the oldest). -/
def pushUndo (s : TextBufferState) : TextBufferState :=
  let st := s.undoStack ++ [undoEntryOf s]
  { s with undoStack := if 100 < st.length then st.drop (st.length - 100) else st }

/-- Modelled from the spec: `undo` of `text-buffer.ts` pops the latest
snapshot and installs it wholesale; with an empty stack it is a no-op. -/
def undo (s : TextBufferState) : TextBufferState :=
  match s.undoStack.getLast? with
  | none => s
  | some e =>
    { lines := e.lines, cursorRow := e.cursorRow, cursorCol := e.cursorCol,
      preferredCol := e.preferredCol, selectionAnchor := e.selectionAnchor,
      clipboard := e.clipboard, lastSearchQuery := e.lastSearchQuery,
      undoStack := s.undoStack.dropLast }

/-- Middle and final lines produced when splicing a multi-line replacement:
every part becomes its own line and the final part receives the suffix of the
original end line. -/
def tailLines (suf : Str) : List Str → List Str
  | [] => []
  | [p] => [p ++ suf]
  | p :: q :: rest => p :: tailLines suf (q :: rest)

/-- Lines produced by splicing the parts of the replacement text between the
prefix of the start line and the suffix of the end line. -/
def spliceParts (pre suf : Str) : List Str → List Str
  | [] => [pre ++ suf]
  | [p] => [pre ++ p ++ suf]
  | p :: q :: rest => (pre ++ p) :: tailLines suf (q :: rest)

/-- Splice step of `replaceRangeInternal` once the range has been clamped:
keep the prefix of the start line and the suffix of the end line, splice the
newline-separated parts of the replacement between them, and place the cursor
at the end of the inserted text. -/
def replaceRangeCore (s : TextBufferState) (sR eR sC eC : Nat) (text : Str) :
    TextBufferState :=
  let pre := (lineAt s.lines sR).take sC
  let suf := (lineAt s.lines eR).drop eC
  let parts := splitNl text
  { s with
      lines := s.lines.take sR ++ spliceParts pre suf parts ++ s.lines.drop (eR + 1),
      cursorRow := sR + (parts.length - 1),
      cursorCol :=
        match parts with
        | [] => (pre ++ suf).length
        | [p] => sC + p.length
        | _ :: rest => (rest.getLastD []).length,
      preferredCol := none }

/-- Modelled from the spec: `replaceRangeInternal` of `text-buffer.ts` (not in
the extracted sources).  It slices `[startCol, endCol)` out of the affected
line range and splices in `text` (which may contain newlines), keeps the lines
sequence non-empty, places the cursor at the end of the inserted text, clears
`preferredCol`, and clamps out-of-range positions silently. -/
def replaceRangeInternal (s : TextBufferState) (startRow startCol endRow endCol : Nat)
    (text : Str) : TextBufferState :=
  let L := s.lines.length
  let sR := min startRow (L - 1)
  let eR := min (max endRow sR) (L - 1)
  let sC := min startCol (lineAt s.lines sR).length
  let eC := min endCol (lineAt s.lines eR).length
  replaceRangeCore s sR eR sC eC text

/-- Modelled from the spec: `isWordCharStrict` of `text-buffer.ts` — letters,
digits and underscore, the Vim word definition. -/
def isWordCharStrict (c : Char) : Bool := c.isAlphanum || c = '_'

/-- Modelled from the spec: `isCombiningMark` of `text-buffer.ts` — membership
in the main Unicode combining-mark blocks. -/
def isCombiningMark (c : Char) : Bool :=
  (0x300 ≤ c.toNat && c.toNat ≤ 0x36F) ||
  (0x1AB0 ≤ c.toNat && c.toNat ≤ 0x1AFF) ||
  (0x1DC0 ≤ c.toNat && c.toNat ≤ 0x1DFF) ||
  (0x20D0 ≤ c.toNat && c.toNat ≤ 0x20FF) ||
  (0xFE20 ≤ c.toNat && c.toNat ≤ 0xFE2F)

/-- Modelled from the spec: `isWordCharWithCombining` of `text-buffer.ts`. -/
def isWordCharWithCombining (c : Char) : Bool :=
  isWordCharStrict c || isCombiningMark c

/-- Does a word start at column `c` of the line? -/
def wordStartAt (line : Str) (c : Nat) : Bool :=
  isWordCharStrict (charAt line c) && (c = 0 || !isWordCharStrict (charAt line (c - 1)))

/-- Does a word end at column `c` of the line? -/
def wordEndAt (line : Str) (c : Nat) : Bool :=
  isWordCharStrict (charAt line c) &&
    (c + 1 = line.length || !isWordCharStrict (charAt line (c + 1)))

/-- All valid positions of row `r` starting at column `c0`, in reading order. -/
def colsOfRow (lines : List Str) (r c0 : Nat) : List (Nat × Nat) :=
  ((List.range (lineLen lines r)).drop c0).map (fun c => (r, c))

/-- All valid positions strictly after `(row, col)` in reading order. -/
def positionsAfter (lines : List Str) (row col : Nat) : List (Nat × Nat) :=
  colsOfRow lines row (col + 1) ++
    (((List.range lines.length).drop (row + 1)).map (fun r => colsOfRow lines r 0)).flatten

/-- All valid positions strictly before `(row, col)` in reverse reading
order. -/
def positionsBefore (lines : List Str) (row col : Nat) : List (Nat × Nat) :=
  ((List.range (min col (lineLen lines row))).reverse.map (fun c => (row, c))) ++
    (((List.range (min row lines.length)).reverse.map
      (fun r => ((List.range (lineLen lines r)).reverse.map (fun c => (r, c)))))).flatten

/-- Modelled from the spec: `findNextWordAcrossLines` of `text-buffer.ts` —
the first word start (when `stopAtWordStart`) or word end (otherwise) strictly
after the given position, crossing line boundaries, stopping at buffer end. -/
def findNextWordAcrossLines (lines : List Str) (row col : Nat)
    (stopAtWordStart : Bool) : Option (Nat × Nat) :=
  (positionsAfter lines row col).find? (fun p =>
    if stopAtWordStart then wordStartAt (lineAt lines p.1) p.2
    else wordEndAt (lineAt lines p.1) p.2)

/-- Modelled from the spec: `findPrevWordAcrossLines` of `text-buffer.ts` —
the first word start strictly before the given position, scanning backward
across line boundaries. -/
def findPrevWordAcrossLines (lines : List Str) (row col : Nat) : Option (Nat × Nat) :=
  (positionsBefore lines row col).find? (fun p => wordStartAt (lineAt lines p.1) p.2)

/-- Modelled from the spec: `findWordEndInLine` of `text-buffer.ts` — the
first word end at or after `col` in the given line. -/
def findWordEndInLine (line : Str) (col : Nat) : Option Nat :=
  ((List.range line.length).drop col).find? (fun c => wordEndAt line c)

/-- Closing bracket matching an opening one (`pairs` in the source). -/
def pairClose (c : Char) : Option Char :=
  if c = '(' then some ')'
  else if c = '{' then some '}'
  else if c = '[' then some ']'
  else if c = '<' then some '>'
  else none

/-- Opening bracket matching a closing one (`reversePairs` in the source). -/
def pairOpen (c : Char) : Option Char :=
  if c = ')' then some '('
  else if c = '}' then some '{'
  else if c = ']' then some '['
  else if c = '>' then some '<'
  else none

/-- Is the character one of the bracket pairs recognised by `%`? -/
def isBracket (c : Char) : Bool := (pairClose c).isSome || (pairOpen c).isSome

/-- Forward scan of one line with a bracket-depth counter: `.inl col` when the
matching closer is found at `col`, `.inr depth` with the updated depth
otherwise.  The list argument is the tail of the line starting at index `i`. -/
def scanPairF (openC closeC : Char) : List Char → Nat → Nat → Sum Nat Nat
  | [], _, d => .inr d
  | ch :: rest, i, d =>
    if ch = openC then scanPairF openC closeC rest (i + 1) (d + 1)
    else if ch = closeC then
      if d = 0 then .inl i else scanPairF openC closeC rest (i + 1) (d - 1)
    else scanPairF openC closeC rest (i + 1) d

/-- Row loop of `findPairForward`, driven by the number of remaining rows. -/
def goPairF (lines : List Str) (openC closeC : Char) :
    Nat → Nat → Nat → Nat → Option (Nat × Nat)
  | 0, _, _, _ => none
  | fuel + 1, row, col, depth =>
    if row < lines.length then
      match scanPairF openC closeC ((lineAt lines row).drop col) col depth with
      | .inl j => some (row, j)
      | .inr d => goPairF lines openC closeC fuel (row + 1) 0 d
    else none

/-- `findPairForward` of the source: scan forward across lines with a depth
counter for the closer matching `openChar`. -/
def findPairForward (lines : List Str) (startRow startCol : Nat)
    (openChar closeChar : Char) : Option (Nat × Nat) :=
  goPairF lines openChar closeChar (lines.length - startRow) startRow startCol 0

/-- Backward scan of one line: the list argument is the reversed prefix of the
line covering columns `[0, i]`. -/
def scanPairB (closeC openC : Char) : List Char → Nat → Nat → Sum Nat Nat
  | [], _, d => .inr d
  | ch :: rest, i, d =>
    if ch = closeC then scanPairB closeC openC rest (i - 1) (d + 1)
    else if ch = openC then
      if d = 0 then .inl i else scanPairB closeC openC rest (i - 1) (d - 1)
    else scanPairB closeC openC rest (i - 1) d

/-- Row loop of `findPairBackward`; `colCount` is the number of leading
columns of the current row still to be scanned (so the scan starts at column
`colCount - 1`, which encodes the `colStart = -1` case of the source as
`colCount = 0`). -/
def goPairB (lines : List Str) (closeC openC : Char) :
    Nat → Nat → Nat → Nat → Option (Nat × Nat)
  | 0, _, _, _ => none
  | fuel + 1, row, colCount, depth =>
    match scanPairB closeC openC (((lineAt lines row).take colCount).reverse)
        (colCount - 1) depth with
    | .inl j => some (row, j)
    | .inr d =>
      if row = 0 then none
      else goPairB lines closeC openC fuel (row - 1) (lineLen lines (row - 1)) d

/-- `findPairBackward` of the source: scan backward across lines with a depth
counter for the opener matching `closeChar`. -/
def findPairBackward (lines : List Str) (startRow colCount : Nat)
    (closeChar openChar : Char) : Option (Nat × Nat) :=
  goPairB lines closeChar openChar (startRow + 1) startRow colCount 0

/-- Active bracket column for `%`: the cursor column when it holds a bracket,
otherwise the first bracket to the right of the cursor on the line. -/
def matchPairActiveCol (cps : Str) (col : Nat) : Option Nat :=
  if col < cps.length && isBracket (charAt cps col) then some col
  else ((List.range cps.length).drop (col + 1)).find?
    (fun i => isBracket (charAt cps i))

/-- `findMatchingPair` of the source: find the bracket at or after the cursor
on the current line, then scan for its partner with a depth counter. -/
def findMatchingPair (lines : List Str) (cursorRow cursorCol : Nat) :
    Option (Nat × Nat) :=
  match matchPairActiveCol (lineAt lines cursorRow) cursorCol with
  | none => none
  | some activeCol =>
    match pairClose (charAt (lineAt lines cursorRow) activeCol) with
    | some closeC =>
      findPairForward lines cursorRow (activeCol + 1)
        (charAt (lineAt lines cursorRow) activeCol) closeC
    | none =>
      match pairOpen (charAt (lineAt lines cursorRow) activeCol) with
      | some openC =>
        findPairBackward lines cursorRow activeCol
          (charAt (lineAt lines cursorRow) activeCol) openC
      | none => none

/-- Does the query occur in the line starting at index `i`?  (Substring test
at a fixed position.) -/
def matchAt (line q : Str) (i : Nat) : Bool := ((line.drop i).take q.length) == q

/-- JavaScript `String.prototype.indexOf(query, from)`: the first index at or
after `min from (line length)` where the query occurs (the empty query occurs
everywhere, including at the end of the string). -/
def jsIndexOf (line q : Str) (f : Nat) : Option Nat :=
  ((List.range (line.length + 1)).drop (min f line.length)).find? (matchAt line q)

/-- JavaScript `String.prototype.lastIndexOf(query, from)`: the largest index
at most `min from (line length)` where the query occurs. -/
def jsLastIndexOf (line q : Str) (f : Nat) : Option Nat :=
  ((List.range (min f line.length + 1)).reverse).find? (matchAt line q)

/-- Value of `Direction` payloads. -/
inductive Direction | forward | backward
deriving Repr, DecidableEq

/-- Search for the query from the cursor, as the (identical) search bodies of
the `vim_search` and `vim_search_next` cases of the source: current line
first, then the remaining lines in scan order, then wrapping around to the
cursor position. -/
def vimSearchFound (lines : List Str) (row col : Nat) (q : Str)
    (dir : Direction) : Option (Nat × Nat) :=
  match dir with
  | .forward =>
    match jsIndexOf (lineAt lines row) q (col + 1) with
    | some idx => some (row, idx)
    | none =>
      match ((List.range lines.length).drop (row + 1)).findSome?
          (fun i => (jsIndexOf (lineAt lines i) q 0).map (fun idx => (i, idx))) with
      | some p => some p
      | none =>
        (List.range (row + 1)).findSome? (fun i =>
          match jsIndexOf (lineAt lines i) q 0 with
          | some idx => if i < row || idx < col then some (i, idx) else none
          | none => none)
  | .backward =>
    match jsLastIndexOf (lineAt lines row) q (col - 1) with
    | some idx => some (row, idx)
    | none =>
      match ((List.range row).reverse).findSome?
          (fun i => (jsLastIndexOf (lineAt lines i) q (lineLen lines i)).map
            (fun idx => (i, idx))) with
      | some p => some p
      | none =>
        (((List.range lines.length).drop row).reverse).findSome? (fun i =>
          match jsLastIndexOf (lineAt lines i) q (lineLen lines i) with
          | some idx => if row < i || col < idx then some (i, idx) else none
          | none => none)

/-- Iterated cursor step of `vim_move_left`: decrement the column; at column 0
step to the last character of the previous line (column 0 for empty lines). -/
def moveLeftLoop (lines : List Str) : Nat → Nat × Nat → Nat × Nat
  | 0, p => p
  | n + 1, (r, c) =>
    if 0 < c then moveLeftLoop lines n (r, c - 1)
    else if 0 < r then
      let pl := lineAt lines (r - 1)
      moveLeftLoop lines n (r - 1, if pl.length = 0 then 0 else pl.length - 1)
    else moveLeftLoop lines n (r, c)

/-- Combining-mark skip of `vim_move_right`: advance while the cursor rests on
a combining mark and is not yet on the last character. -/
def skipCombining (cps : Str) : Nat → Nat → Nat
  | 0, c => c
  | fuel + 1, c =>
    if c < cps.length && isCombiningMark (charAt cps c) && c < cps.length - 1 then
      skipCombining cps fuel (c + 1)
    else c

/-- Iterated cursor step of `vim_move_right`. -/
def moveRightLoop (lines : List Str) : Nat → Nat × Nat → Nat × Nat
  | 0, p => p
  | n + 1, (r, c) =>
    let cur := lineAt lines r
    if cur.length = 0 then
      if r < lines.length - 1 then moveRightLoop lines n (r + 1, 0)
      else moveRightLoop lines n (r, c)
    else if c < cur.length - 1 then
      moveRightLoop lines n (r, skipCombining cur cur.length (c + 1))
    else if r < lines.length - 1 then moveRightLoop lines n (r + 1, 0)
    else moveRightLoop lines n (r, c)

/-- Iterated step of `vim_move_word_forward` (stops when no next word). -/
def wordFwdLoop (lines : List Str) : Nat → Nat × Nat → Nat × Nat
  | 0, p => p
  | n + 1, (r, c) =>
    match findNextWordAcrossLines lines r c true with
    | some p => wordFwdLoop lines n p
    | none => (r, c)

/-- Iterated step of `vim_move_word_backward` (stops when no previous
word). -/
def wordBackLoop (lines : List Str) : Nat → Nat × Nat → Nat × Nat
  | 0, p => p
  | n + 1, (r, c) =>
    match findPrevWordAcrossLines lines r c with
    | some p => wordBackLoop lines n p
    | none => (r, c)

/-- Skip combining marks from index `i` onward (helper of
`isAtEndOfBaseWord`). -/
def skipMarks (cps : Str) : Nat → Nat → Nat
  | 0, i => i
  | fuel + 1, i =>
    if i < cps.length && isCombiningMark (charAt cps i) then skipMarks cps fuel (i + 1)
    else i

/-- `isAtEndOfBaseWord` of the source: the position holds a base word
character followed only by combining marks until a non-word character or the
end of the line. -/
def isAtEndOfBaseWord (cps : Str) (col : Nat) : Bool :=
  if !isWordCharStrict (charAt cps col) then false
  else
    let i := skipMarks cps cps.length (col + 1)
    decide (cps.length ≤ i) || !isWordCharStrict (charAt cps i)

/-- Iterations after the first of the `vim_move_word_end` loop. -/
def wordEndLoopRest (lines : List Str) : Nat → Nat × Nat → Nat × Nat
  | 0, p => p
  | n + 1, (r, c) =>
    match findNextWordAcrossLines lines r c false with
    | some p => wordEndLoopRest lines n p
    | none => (r, c)

/-- Cursor target of `vim_move_word_end`, including the special first
iteration that detects being already at the end of a word. -/
def wordEndTarget (lines : List Str) (row col count : Nat) : Nat × Nat :=
  match count with
  | 0 => (row, col)
  | m + 1 =>
    let cps := lineAt lines row
    let atEnd :=
      col < cps.length && isWordCharStrict (charAt cps col) &&
        (decide (cps.length ≤ col + 1) ||
          !isWordCharWithCombining (charAt cps (col + 1)) ||
          (isWordCharStrict (charAt cps col) && isAtEndOfBaseWord cps col))
    if atEnd then
      match findNextWordAcrossLines lines row (col + 1) false with
      | some p => wordEndLoopRest lines m p
      | none =>
        match findNextWordAcrossLines lines row col false with
        | some p => wordEndLoopRest lines m p
        | none => (row, col)
    else
      match findNextWordAcrossLines lines row col false with
      | some p => wordEndLoopRest lines m p
      | none => (row, col)

/-- Scan-back loop of the inner-word selector: move the start column left
while the previous character has the same class. -/
def scanBackWhile (cps : Str) (p : Char → Bool) : Nat → Nat
  | 0 => 0
  | c + 1 => if p (charAt cps c) then scanBackWhile cps p c else c + 1

/-- Scan-forward loop of the inner-word selector: move the end column right
while the next character has the same class. -/
def scanFwdWhile (cps : Str) (p : Char → Bool) : Nat → Nat → Nat
  | 0, c => c
  | fuel + 1, c =>
    if c < cps.length - 1 && p (charAt cps (c + 1)) then scanFwdWhile cps p fuel (c + 1)
    else c

/-- Ordered inclusive selection endpoints, as computed by the visual-mode
branches of `vim_delete_char` and `vim_yank_selection`. -/
def orderSelection (anchor : Nat × Nat) (cursorRow cursorCol : Nat) :
    Nat × Nat × Nat × Nat :=
  if anchor.1 < cursorRow || (anchor.1 = cursorRow && anchor.2 < cursorCol) then
    (anchor.1, anchor.2, cursorRow, cursorCol)
  else
    (cursorRow, cursorCol, anchor.1, anchor.2)

/-- Text of the inclusive selection `[start, end]`, as extracted by the
`vim_yank_selection` case of the source. -/
def selectionYankText (lines : List Str) (sr sc er ec : Nat) : Str :=
  if sr = er then cpSlice (lineAt lines sr) sc (ec + 1)
  else
    (cpSliceFrom (lineAt lines sr) sc ++ ['\n']) ++
      (((List.range er).drop (sr + 1)).map (fun i => lineAt lines i ++ ['\n'])).flatten ++
      (lineAt lines er).take (ec + 1)

/-- Line offsets used by `vim_change_line` and `vim_change_movement`.
Modelled from the spec: `getLineRangeOffsets` of `text-buffer.ts` (not in the
extracted sources) returns the offsets, in the newline-joined text, of the
start of line `startRow` and of the end of line `startRow + count - 1`, per
the specification's "operate on whole lines". -/
def lineStartOffset (lines : List Str) (r : Nat) : Nat :=
  ((lines.take r).map (fun l => l.length + 1)).sum

/-- Modelled from the spec: see `lineStartOffset`. -/
def getLineRangeOffsets (startRow count : Nat) (lines : List Str) : Nat × Nat :=
  let startOffset := lineStartOffset lines startRow
  if count = 0 then (startOffset, startOffset)
  else
    (startOffset,
      lineStartOffset lines (startRow + count - 1) + lineLen lines (startRow + count - 1))

/-- Row/column position of an offset in the newline-joined text, clamped into
the final line. -/
def offsetToPos : List Str → Nat → Nat × Nat
  | [], _ => (0, 0)
  | [l], off => (0, min off l.length)
  | l :: l2 :: rest, off =>
    if off ≤ l.length then (0, off)
    else
      let p := offsetToPos (l2 :: rest) (off - l.length - 1)
      (p.1 + 1, p.2)

/-- Modelled from the spec: `getPositionFromOffsets` of `text-buffer.ts` (not
in the extracted sources) converts a pair of offsets back to row/column
positions. -/
def getPositionFromOffsets (startOffset endOffset : Nat) (lines : List Str) :
    Nat × Nat × Nat × Nat :=
  let s := offsetToPos lines startOffset
  let e := offsetToPos lines endOffset
  (s.1, s.2, e.1, e.2)

/-- Inclusivity of a `find_char` motion. -/
inductive FindType | inclusive | exclusive
deriving Repr, DecidableEq

/-- Paste placement. -/
inductive PasteDir | before | after
deriving Repr, DecidableEq

/-- Movements accepted by `vim_change_movement`. -/
inductive Movement | h | j | k | l
deriving Repr, DecidableEq

/-- The `VimAction` variants handled by `handleVimAction`, with their
payloads. -/
inductive VimAction
  | vim_delete_word_forward (count : Nat)
  | vim_change_word_forward (count : Nat)
  | vim_delete_word_backward (count : Nat)
  | vim_change_word_backward (count : Nat)
  | vim_delete_word_end (count : Nat)
  | vim_change_word_end (count : Nat)
  | vim_delete_line (count : Nat)
  | vim_change_line (count : Nat)
  | vim_delete_to_end_of_line
  | vim_change_to_end_of_line
  | vim_delete_to_line_start
  | vim_change_movement (movement : Movement) (count : Nat)
  | vim_move_left (count : Nat)
  | vim_move_right (count : Nat)
  | vim_move_up (count : Nat)
  | vim_move_down (count : Nat)
  | vim_move_word_forward (count : Nat)
  | vim_move_word_backward (count : Nat)
  | vim_move_word_end (count : Nat)
  | vim_delete_char (count : Nat)
  | vim_delete_char_before (count : Nat)
  | vim_toggle_case (count : Nat)
  | vim_insert_at_cursor
  | vim_append_at_cursor
  | vim_open_line_below
  | vim_open_line_above
  | vim_append_at_line_end
  | vim_insert_at_line_start
  | vim_move_to_line_start
  | vim_move_to_line_end
  | vim_move_to_first_nonwhitespace
  | vim_move_to_first_line
  | vim_move_to_last_line
  | vim_move_to_line (lineNumber : Nat)
  | vim_escape_insert_mode
  | vim_set_selection_anchor
  | vim_clear_selection
  | vim_search (query : Str) (direction : Direction)
  | vim_search_next (direction : Direction)
  | vim_yank (text : Str)
  | vim_yank_selection
  | vim_paste (direction : PasteDir)
  | vim_replace_char (char : Str)
  | vim_find_char (char : Str) (direction : Direction) (ftype : FindType)
  | vim_move_to_matching_pair
  | vim_delete_inner_word (count : Nat)
  | vim_change_inner_word (count : Nat)
  | vim_yank_inner_word (count : Nat)
deriving Repr, DecidableEq

/-- End position of the range deleted by `vim_delete_word_forward` /
`vim_change_word_forward`. -/
def dwForwardEnd (lines : List Str) : Nat → Nat × Nat → Nat × Nat
  | 0, p => p
  | n + 1, (r, c) =>
    match findNextWordAcrossLines lines r c true with
    | some p => dwForwardEnd lines n p
    | none =>
      let cur := lineAt lines r
      (r, match findWordEndInLine cur c with
          | some w => w + 1
          | none => cur.length)

/-- End position accumulated by the `vim_delete_word_end` loop: the first
component is the remaining count, then the scan position, then the
accumulated end position. -/
def deleteWordEndTarget (lines : List Str) : Nat → Nat × Nat → Nat × Nat → Nat × Nat
  | 0, _, acc => acc
  | n + 1, (r, c), acc =>
    match findNextWordAcrossLines lines r c false with
    | none => acc
    | some (wr, wc) =>
      let acc2 := (wr, wc + 1)
      if n = 0 then acc2
      else
        match findNextWordAcrossLines lines wr (wc + 1) true with
        | some p => deleteWordEndTarget lines n p acc2
        | none => acc2

/-- Case `vim_delete_word_forward` / `vim_change_word_forward` of the
source. -/
def vimDeleteWordForwardImpl (s : TextBufferState) (count : Nat) : TextBufferState :=
  let e := dwForwardEnd s.lines count (s.cursorRow, s.cursorCol)
  if e ≠ (s.cursorRow, s.cursorCol) then
    replaceRangeInternal (pushUndo s) s.cursorRow s.cursorCol e.1 e.2 []
  else s

/-- Case `vim_delete_word_backward` / `vim_change_word_backward` of the
source. -/
def vimDeleteWordBackwardImpl (s : TextBufferState) (count : Nat) : TextBufferState :=
  let st := wordBackLoop s.lines count (s.cursorRow, s.cursorCol)
  if st ≠ (s.cursorRow, s.cursorCol) then
    replaceRangeInternal (pushUndo s) st.1 st.2 s.cursorRow s.cursorCol []
  else s

/-- Case `vim_delete_word_end` / `vim_change_word_end` of the source. -/
def vimDeleteWordEndImpl (s : TextBufferState) (count : Nat) : TextBufferState :=
  let t := deleteWordEndTarget s.lines count (s.cursorRow, s.cursorCol)
    (s.cursorRow, s.cursorCol)
  let ec := if t.1 < s.lines.length then min t.2 (lineLen s.lines t.1) else t.2
  if (t.1, ec) ≠ (s.cursorRow, s.cursorCol) then
    replaceRangeInternal (pushUndo s) s.cursorRow s.cursorCol t.1 ec []
  else s

/-- Case `vim_delete_line` of the source. -/
def vimDeleteLineImpl (s : TextBufferState) (count : Nat) : TextBufferState :=
  if s.lines.length = 0 then s
  else
    let linesToDelete := min count (s.lines.length - s.cursorRow)
    if s.lines.length = 1 || s.lines.length ≤ linesToDelete then
      let ns := pushUndo s
      { ns with lines := [[]], cursorRow := 0, cursorCol := 0, preferredCol := none }
    else
      let ns := pushUndo s
      let newLines := ns.lines.take s.cursorRow ++ ns.lines.drop (s.cursorRow + linesToDelete)
      { ns with lines := newLines,
                cursorRow := min s.cursorRow (newLines.length - 1),
                cursorCol := 0,
                preferredCol := none }

/-- Case `vim_change_line` of the source. -/
def vimChangeLineImpl (s : TextBufferState) (count : Nat) : TextBufferState :=
  if s.lines.length = 0 then s
  else
    let linesToChange := min count (s.lines.length - s.cursorRow)
    let ns := pushUndo s
    let offs := getLineRangeOffsets s.cursorRow linesToChange ns.lines
    let pos := getPositionFromOffsets offs.1 offs.2 ns.lines
    replaceRangeInternal ns pos.1 pos.2.1 pos.2.2.1 pos.2.2.2 []

/-- Case `vim_delete_to_end_of_line` / `vim_change_to_end_of_line` of the
source. -/
def vimDeleteToEndOfLineImpl (s : TextBufferState) : TextBufferState :=
  let cur := lineAt s.lines s.cursorRow
  if s.cursorCol < cur.length then
    replaceRangeInternal (pushUndo s) s.cursorRow s.cursorCol s.cursorRow cur.length []
  else s

/-- Case `vim_delete_to_line_start` of the source. -/
def vimDeleteToLineStartImpl (s : TextBufferState) : TextBufferState :=
  if 0 < s.cursorCol then
    let result := replaceRangeInternal (pushUndo s) s.cursorRow 0 s.cursorRow s.cursorCol []
    { result with cursorCol := 0 }
  else s

/-- Case `vim_change_movement` of the source. -/
def vimChangeMovementImpl (s : TextBufferState) (movement : Movement) (count : Nat) :
    TextBufferState :=
  let totalLines := s.lines.length
  match movement with
  | .h =>
    replaceRangeInternal (pushUndo s) s.cursorRow (s.cursorCol - count)
      s.cursorRow s.cursorCol []
  | .j =>
    let linesToChange := min count (totalLines - s.cursorRow)
    if 0 < linesToChange then
      if totalLines = 1 then
        replaceRangeInternal (pushUndo s) 0 0 0 (lineLen s.lines 0) []
      else
        let ns := pushUndo s
        let offs := getLineRangeOffsets s.cursorRow linesToChange ns.lines
        let pos := getPositionFromOffsets offs.1 offs.2 ns.lines
        replaceRangeInternal ns pos.1 pos.2.1 pos.2.2.1 pos.2.2.2 []
    else s
  | .k =>
    let upLines := min count (s.cursorRow + 1)
    if 0 < upLines then
      if s.lines.length = 1 then
        replaceRangeInternal (pushUndo s) 0 0 0 (lineLen s.lines 0) []
      else
        let startRow := s.cursorRow + 1 - count
        let linesToChange := s.cursorRow - startRow + 1
        let ns := pushUndo s
        let offs := getLineRangeOffsets startRow linesToChange ns.lines
        let pos := getPositionFromOffsets offs.1 offs.2 ns.lines
        let resultState :=
          replaceRangeInternal ns pos.1 pos.2.1 pos.2.2.1 pos.2.2.2 []
        { resultState with cursorRow := startRow, cursorCol := 0 }
    else s
  | .l =>
    replaceRangeInternal (pushUndo s) s.cursorRow s.cursorCol
      s.cursorRow (min (lineLen s.lines s.cursorRow) (s.cursorCol + count)) []

/-- Case `vim_delete_char` of the source, including the visual-selection
branch. -/
def vimDeleteCharImpl (s : TextBufferState) (count : Nat) : TextBufferState :=
  match s.selectionAnchor with
  | some anchor =>
    let ns := pushUndo s
    let sel := orderSelection anchor s.cursorRow s.cursorCol
    { replaceRangeInternal ns sel.1 sel.2.1 sel.2.2.1 (sel.2.2.2 + 1) [] with
        selectionAnchor := none }
  | none =>
    let cur := lineAt s.lines s.cursorRow
    if s.cursorCol < cur.length then
      let deleteCount := min count (cur.length - s.cursorCol)
      replaceRangeInternal (pushUndo s) s.cursorRow s.cursorCol
        s.cursorRow (s.cursorCol + deleteCount) []
    else s

/-- Case `vim_delete_char_before` of the source. -/
def vimDeleteCharBeforeImpl (s : TextBufferState) (count : Nat) : TextBufferState :=
  if 0 < s.cursorCol then
    let deleteCount := min count s.cursorCol
    let startCol := s.cursorCol - deleteCount
    let result := replaceRangeInternal (pushUndo s) s.cursorRow startCol
      s.cursorRow s.cursorCol []
    { result with cursorCol := startCol }
  else s

/-- Toggle the case of one code point, as `char === char.toUpperCase()`
branching in the source. -/
def toggleCaseChar (c : Char) : Char :=
  if c = c.toUpper then c.toLower else c.toUpper

/-- Case `vim_toggle_case` of the source. -/
def vimToggleCaseImpl (s : TextBufferState) (count : Nat) : TextBufferState :=
  let cps := lineAt s.lines s.cursorRow
  if s.cursorCol < cps.length then
    let endCol := min (s.cursorCol + count) cps.length
    let newText := ((cps.drop s.cursorCol).take (endCol - s.cursorCol)).map toggleCaseChar
    let result := replaceRangeInternal (pushUndo s) s.cursorRow s.cursorCol
      s.cursorRow endCol newText
    { result with cursorCol := min endCol (cps.length - 1) }
  else s

/-- Case `vim_paste` of the source. -/
def vimPasteImpl (s : TextBufferState) (direction : PasteDir) : TextBufferState :=
  if s.clipboard = [] then s
  else
    let ns := pushUndo s
    let cur := lineAt s.lines s.cursorRow
    match direction with
    | .after =>
      if s.clipboard.contains '\n' then
        if s.clipboard.getLast? = some '\n' then
          replaceRangeInternal ns s.cursorRow cur.length s.cursorRow cur.length
            ('\n' :: s.clipboard.dropLast)
        else
          let insertCol := min (s.cursorCol + 1) cur.length
          replaceRangeInternal ns s.cursorRow insertCol s.cursorRow insertCol s.clipboard
      else
        let insertCol := min (s.cursorCol + 1) cur.length
        replaceRangeInternal ns s.cursorRow insertCol s.cursorRow insertCol s.clipboard
    | .before =>
      if s.clipboard.contains '\n' && s.clipboard.getLast? == some '\n' then
        replaceRangeInternal ns s.cursorRow 0 s.cursorRow 0 s.clipboard
      else
        replaceRangeInternal ns s.cursorRow s.cursorCol s.cursorRow s.cursorCol s.clipboard

/-- Case `vim_find_char` of the source. -/
def vimFindCharImpl (s : TextBufferState) (char : Str) (direction : Direction)
    (ftype : FindType) : TextBufferState :=
  let cur := lineAt s.lines s.cursorRow
  let newCol? :=
    match direction with
    | .forward =>
      ((List.range cur.length).drop (s.cursorCol + 1)).find?
        (fun i => ([charAt cur i] : Str) == char)
    | .backward =>
      ((List.range (min s.cursorCol cur.length)).reverse).find?
        (fun i => ([charAt cur i] : Str) == char)
  match newCol? with
  | some nc =>
    let adjusted :=
      match ftype with
      | .inclusive => nc
      | .exclusive => match direction with | .forward => nc - 1 | .backward => nc + 1
    let finalCol := min adjusted (cur.length - 1)
    { s with cursorCol := finalCol, preferredCol := none }
  | none => s

/-- Cases `vim_delete_inner_word` / `vim_change_inner_word` /
`vim_yank_inner_word` of the source; `yankOnly` selects the yank variant. -/
def vimInnerWordImpl (s : TextBufferState) (yankOnly : Bool) : TextBufferState :=
  let cur := lineAt s.lines s.cursorRow
  if cur.length = 0 then s
  else
    let startCol0 := if cur.length ≤ s.cursorCol then cur.length - 1 else s.cursorCol
    let isW := isWordCharStrict (charAt cur startCol0) ||
      isWordCharWithCombining (charAt cur startCol0)
    let check := fun ch =>
      (isWordCharStrict ch || isWordCharWithCombining ch) == isW
    let startCol := scanBackWhile cur check startCol0
    let endCol := scanFwdWhile cur check cur.length s.cursorCol
    if yankOnly then { s with clipboard := cpSlice cur startCol (endCol + 1) }
    else
      replaceRangeInternal (pushUndo s) s.cursorRow startCol s.cursorRow (endCol + 1) []

/-- The pure reducer `handleVimAction` of the source: one function
`(state, action) → state` for every editing verb. -/
def handleVimAction (s : TextBufferState) (a : VimAction) : TextBufferState :=
  match a with
  | .vim_delete_word_forward count => vimDeleteWordForwardImpl s count
  | .vim_change_word_forward count => vimDeleteWordForwardImpl s count
  | .vim_delete_word_backward count => vimDeleteWordBackwardImpl s count
  | .vim_change_word_backward count => vimDeleteWordBackwardImpl s count
  | .vim_delete_word_end count => vimDeleteWordEndImpl s count
  | .vim_change_word_end count => vimDeleteWordEndImpl s count
  | .vim_delete_line count => vimDeleteLineImpl s count
  | .vim_change_line count => vimChangeLineImpl s count
  | .vim_delete_to_end_of_line => vimDeleteToEndOfLineImpl s
  | .vim_change_to_end_of_line => vimDeleteToEndOfLineImpl s
  | .vim_delete_to_line_start => vimDeleteToLineStartImpl s
  | .vim_change_movement movement count => vimChangeMovementImpl s movement count
  | .vim_move_left count =>
    let p := moveLeftLoop s.lines count (s.cursorRow, s.cursorCol)
    { s with cursorRow := p.1, cursorCol := p.2, preferredCol := none }
  | .vim_move_right count =>
    let p := moveRightLoop s.lines count (s.cursorRow, s.cursorCol)
    { s with cursorRow := p.1, cursorCol := p.2, preferredCol := none }
  | .vim_move_up count =>
    let newRow := s.cursorRow - count
    let targetLine := lineAt s.lines newRow
    let newPreferredCol := s.preferredCol.getD s.cursorCol
    let newCol := min newPreferredCol
      (if 0 < targetLine.length then targetLine.length - 1 else 0)
    { s with cursorRow := newRow, cursorCol := newCol,
             preferredCol := some newPreferredCol }
  | .vim_move_down count =>
    let newRow := min (s.lines.length - 1) (s.cursorRow + count)
    let targetLine := lineAt s.lines newRow
    let newPreferredCol := s.preferredCol.getD s.cursorCol
    let newCol := min newPreferredCol
      (if 0 < targetLine.length then targetLine.length - 1 else 0)
    { s with cursorRow := newRow, cursorCol := newCol,
             preferredCol := some newPreferredCol }
  | .vim_move_word_forward count =>
    let p := wordFwdLoop s.lines count (s.cursorRow, s.cursorCol)
    { s with cursorRow := p.1, cursorCol := p.2, preferredCol := none }
  | .vim_move_word_backward count =>
    let p := wordBackLoop s.lines count (s.cursorRow, s.cursorCol)
    { s with cursorRow := p.1, cursorCol := p.2, preferredCol := none }
  | .vim_move_word_end count =>
    let p := wordEndTarget s.lines s.cursorRow s.cursorCol count
    { s with cursorRow := p.1, cursorCol := p.2, preferredCol := none }
  | .vim_delete_char count => vimDeleteCharImpl s count
  | .vim_delete_char_before count => vimDeleteCharBeforeImpl s count
  | .vim_toggle_case count => vimToggleCaseImpl s count
  | .vim_insert_at_cursor => s
  | .vim_append_at_cursor =>
    let cur := lineAt s.lines s.cursorRow
    let newCol := if s.cursorCol < cur.length then s.cursorCol + 1 else s.cursorCol
    { s with cursorCol := newCol, preferredCol := none }
  | .vim_open_line_below =>
    let endOfLine := lineLen s.lines s.cursorRow
    replaceRangeInternal (pushUndo s) s.cursorRow endOfLine s.cursorRow endOfLine ['\n']
  | .vim_open_line_above =>
    let resultState := replaceRangeInternal (pushUndo s) s.cursorRow 0 s.cursorRow 0 ['\n']
    { resultState with cursorRow := s.cursorRow, cursorCol := 0 }
  | .vim_append_at_line_end =>
    { s with cursorCol := lineLen s.lines s.cursorRow, preferredCol := none }
  | .vim_insert_at_line_start =>
    let cur := lineAt s.lines s.cursorRow
    { s with cursorCol := (cur.takeWhile (fun c => c.isWhitespace)).length,
             preferredCol := none }
  | .vim_move_to_line_start => { s with cursorCol := 0, preferredCol := none }
  | .vim_move_to_line_end =>
    let lineLength := lineLen s.lines s.cursorRow
    { s with cursorCol := if 0 < lineLength then lineLength - 1 else 0,
             preferredCol := none }
  | .vim_move_to_first_nonwhitespace =>
    let cur := lineAt s.lines s.cursorRow
    { s with cursorCol := (cur.takeWhile (fun c => c.isWhitespace)).length,
             preferredCol := none }
  | .vim_move_to_first_line =>
    { s with cursorRow := 0, cursorCol := 0, preferredCol := none }
  | .vim_move_to_last_line =>
    { s with cursorRow := s.lines.length - 1, cursorCol := 0, preferredCol := none }
  | .vim_move_to_line lineNumber =>
    let targetRow := min (lineNumber - 1) (s.lines.length - 1)
    { s with cursorRow := targetRow, cursorCol := 0, preferredCol := none }
  | .vim_escape_insert_mode =>
    { s with cursorCol := s.cursorCol - 1, preferredCol := none }
  | .vim_set_selection_anchor =>
    { s with selectionAnchor := some (s.cursorRow, s.cursorCol) }
  | .vim_clear_selection => { s with selectionAnchor := none }
  | .vim_search query direction =>
    match vimSearchFound s.lines s.cursorRow s.cursorCol query direction with
    | some (fr, fc) =>
      { s with cursorRow := fr, cursorCol := fc, preferredCol := none,
               lastSearchQuery := query }
    | none => { s with lastSearchQuery := query }
  | .vim_search_next direction =>
    if s.lastSearchQuery = [] then s
    else
      match vimSearchFound s.lines s.cursorRow s.cursorCol s.lastSearchQuery direction with
      | some (fr, fc) =>
        { s with cursorRow := fr, cursorCol := fc, preferredCol := none }
      | none => s
  | .vim_yank text => { s with clipboard := text }
  | .vim_yank_selection =>
    match s.selectionAnchor with
    | none => s
    | some anchor =>
      let sel := orderSelection anchor s.cursorRow s.cursorCol
      { s with clipboard := selectionYankText s.lines sel.1 sel.2.1 sel.2.2.1 sel.2.2.2 }
  | .vim_paste direction => vimPasteImpl s direction
  | .vim_replace_char char =>
    let cur := lineAt s.lines s.cursorRow
    if s.cursorCol < cur.length then
      replaceRangeInternal (pushUndo s) s.cursorRow s.cursorCol
        s.cursorRow (s.cursorCol + 1) char
    else s
  | .vim_find_char char direction ftype => vimFindCharImpl s char direction ftype
  | .vim_move_to_matching_pair =>
    match findMatchingPair s.lines s.cursorRow s.cursorCol with
    | some (mr, mc) =>
      { s with cursorRow := mr, cursorCol := mc, preferredCol := none }
    | none => s
  | .vim_delete_inner_word _ => vimInnerWordImpl s false
  | .vim_change_inner_word _ => vimInnerWordImpl s false
  | .vim_yank_inner_word _ => vimInnerWordImpl s true

/-- The initial buffer state: a single empty line with the cursor at the
origin. -/
def initBuffer : TextBufferState :=
  { lines := [[]], cursorRow := 0, cursorCol := 0, preferredCol := none,
    selectionAnchor := none, clipboard := [], lastSearchQuery := [],
    undoStack := [] }

/-! Controller state machine of `vim.ts`. -/

/-- Vim modes. -/
inductive Mode | NORMAL | INSERT | VISUAL | VISUAL_LINE | COMMAND
deriving Repr, DecidableEq

/-- Pending operators. -/
inductive Operator | g | d | c | y
deriving Repr, DecidableEq

/-- Command identifiers stored in `lastCommand` (the `CMD_TYPES` constants of
the source, plus the pending-replace command `r`). -/
inductive CmdType
  | dw | db | de | cw | cb | ce | x | dd | cc | dEol | cEol
  | ch | cj | ck | cl | r
deriving Repr, DecidableEq

/-- A pending or remembered find (`f`/`F`/`t`/`T`). -/
structure FindSpec where
  char : Str
  direction : Direction
  ftype : FindType
deriving Repr, DecidableEq

/-- The reducer state of `useVim` (`VimState` in the source). -/
structure VimSt where
  mode : Mode
  commandBuffer : Str
  count : Nat
  pendingOperator : Option Operator
  pendingChord : Bool
  pendingReplace : Bool
  pendingInner : Bool
  pendingFind : Option FindSpec
  lastFind : Option FindSpec
  lastCommand : Option (CmdType × Nat)
deriving Repr, DecidableEq

/-- The initial controller state (`initialVimState` in the source). -/
def initialVimState : VimSt :=
  { mode := .NORMAL, commandBuffer := [], count := 0, pendingOperator := none,
    pendingChord := false, pendingReplace := false, pendingInner := false,
    pendingFind := none, lastFind := none, lastCommand := none }

/-- `createClearPendingState` of the source (also clears `lastFind`). -/
def clearPendingState (v : VimSt) : VimSt :=
  { v with count := 0, pendingOperator := none, pendingChord := false,
           pendingReplace := false, pendingInner := false, pendingFind := none,
           lastFind := none }

/-- `updateMode` of the source: set the mode and clear the command buffer when
leaving COMMAND mode. -/
def updateMode (v : VimSt) (m : Mode) : VimSt :=
  { v with mode := m,
           commandBuffer := if m = Mode.COMMAND then v.commandBuffer else [] }

/-- `getCurrentCount` of the source: a zero count means one. -/
def getCurrentCount (v : VimSt) : Nat := if v.count = 0 then 1 else v.count

/-- Key events as normalised by the controller. -/
structure Key where
  name : Str
  sequence : Str
  ctrl : Bool
  meta : Bool
  shift : Bool
  paste : Bool
  insertable : Bool
deriving Repr, DecidableEq

/-- The two vim-mode styles of the `general.vimModeStyle` setting. -/
inductive VimModeStyle | vimEditor | bashVim
deriving Repr, DecidableEq

/-- Key name constants used by the NORMAL/VISUAL branch. -/
def escName : Str := ['e', 's', 'c', 'a', 'p', 'e']

/-- Key name of the left arrow. -/
def leftName : Str := ['l', 'e', 'f', 't']

/-- Key name of the right arrow. -/
def rightName : Str := ['r', 'i', 'g', 'h', 't']

/-- Key name of the up arrow. -/
def upName : Str := ['u', 'p']

/-- Key name of the down arrow. -/
def downName : Str := ['d', 'o', 'w', 'n']

/-- `executeCommand` of the source: run one repeatable command against the
buffer; the Boolean is its return value (`false` for unknown commands). -/
def executeCommand (v : VimSt) (buf : TextBufferState) (cmd : CmdType) (count : Nat) :
    Bool × VimSt × TextBufferState :=
  match cmd with
  | .dw => (true, v, handleVimAction buf (.vim_delete_word_forward count))
  | .db => (true, v, handleVimAction buf (.vim_delete_word_backward count))
  | .de => (true, v, handleVimAction buf (.vim_delete_word_end count))
  | .cw => (true, updateMode v .INSERT, handleVimAction buf (.vim_change_word_forward count))
  | .cb => (true, updateMode v .INSERT, handleVimAction buf (.vim_change_word_backward count))
  | .ce => (true, updateMode v .INSERT, handleVimAction buf (.vim_change_word_end count))
  | .x => (true, v, handleVimAction buf (.vim_delete_char count))
  | .dd => (true, v, handleVimAction buf (.vim_delete_line count))
  | .cc => (true, updateMode v .INSERT, handleVimAction buf (.vim_change_line count))
  | .ch => (true, updateMode v .INSERT, handleVimAction buf (.vim_change_movement .h count))
  | .cj => (true, updateMode v .INSERT, handleVimAction buf (.vim_change_movement .j count))
  | .ck => (true, updateMode v .INSERT, handleVimAction buf (.vim_change_movement .k count))
  | .cl => (true, updateMode v .INSERT, handleVimAction buf (.vim_change_movement .l count))
  | .dEol => (true, v, handleVimAction buf .vim_delete_to_end_of_line)
  | .cEol => (true, updateMode v .INSERT, handleVimAction buf .vim_change_to_end_of_line)
  | .r => (false, v, buf)

/-- The `CMD_TYPES.CHANGE_MOVEMENT` identifier of a movement. -/
def cmdOfMovement : Movement → CmdType
  | .h => .ch
  | .j => .cj
  | .k => .ck
  | .l => .cl

/-- `handleChangeMovement` of the source. -/
def handleChangeMovement (v : VimSt) (buf : TextBufferState) (m : Movement) :
    Bool × VimSt × TextBufferState :=
  let count := getCurrentCount v
  let buf1 := handleVimAction buf (.vim_change_movement m count)
  let v1 := updateMode { v with count := 0 } .INSERT
  (true, { v1 with lastCommand := some (cmdOfMovement m, count), pendingOperator := none },
    buf1)

/-- Operator-motion command table of `handleOperatorMotion`. -/
def operatorMotionCmd (deleteOp : Bool) : Char → CmdType
  | 'w' => if deleteOp then .dw else .cw
  | 'b' => if deleteOp then .db else .cb
  | _ => if deleteOp then .de else .ce

/-- `handleOperatorMotion` of the source (`deleteOp` selects `d` over `c`). -/
def handleOperatorMotion (v : VimSt) (buf : TextBufferState) (deleteOp : Bool)
    (motion : Char) : Bool × VimSt × TextBufferState :=
  let count := getCurrentCount v
  let cmd := operatorMotionCmd deleteOp motion
  let r := executeCommand v buf cmd count
  (true, { r.2.1 with lastCommand := some (cmd, count), count := 0,
                      pendingOperator := none }, r.2.2)

/-- Is the key's sequence a single digit `1`-`9`? -/
def isDigit19 (seq : Str) : Bool :=
  match seq with
  | [ch] => '1' ≤ ch && ch ≤ '9'
  | _ => false

/-- Numeric value of a single-digit sequence. -/
def digitVal (seq : Str) : Nat :=
  match seq with
  | [ch] => ch.toNat - '0'.toNat
  | _ => 0

/-- Modelled from the spec: the buffer's plain-text input path
(`buffer.handleInput`, in `text-buffer.ts`, not in the extracted sources) as
used when command mode is disabled — the character is inserted verbatim at the
cursor. -/
def bufferInsertVerbatim (buf : TextBufferState) (seq : Str) : TextBufferState :=
  replaceRangeInternal buf buf.cursorRow buf.cursorCol buf.cursorRow buf.cursorCol seq

/-- The NORMAL/VISUAL/VISUAL_LINE portion of `handleInput` in the source,
including the pending-replace, pending-find and Ctrl+X-chord short circuits
that precede the mode dispatch.  INSERT and COMMAND modes are handled by other
sub-handlers in the source and are outside this model (`none`).  The result
triple is (handled, controller state, buffer state). -/
def handleInputNV (style : VimModeStyle) (disableCommandMode : Bool) (v : VimSt)
    (buf : TextBufferState) (key : Key) : Option (Bool × VimSt × TextBufferState) :=
  if v.pendingReplace then
    some (true,
      { v with pendingReplace := false, count := 0, lastCommand := some (.r, 1) },
      handleVimAction buf (.vim_replace_char key.sequence))
  else
    match v.pendingFind with
    | some pf =>
      some (true,
        { v with pendingFind := none,
                 lastFind := some { char := key.sequence, direction := pf.direction,
                                    ftype := pf.ftype },
                 count := 0 },
        handleVimAction buf (.vim_find_char key.sequence pf.direction pf.ftype))
    | none =>
      if v.pendingChord then
        -- Ctrl+E launches the external editor (a port with no effect on the
        -- buffer state); any other key is swallowed.  Both clear the chord.
        some (true, clearPendingState v, buf)
      else if key.ctrl && key.name = ['x'] then
        some (true, { v with pendingChord := true }, buf)
      else
        match v.mode with
        | .INSERT => none
        | .COMMAND => none
        | _ =>
          if key.name = escName then
            if v.mode = .VISUAL || v.mode = .VISUAL_LINE then
              some (true, clearPendingState (updateMode v .NORMAL),
                handleVimAction buf .vim_clear_selection)
            else if v.pendingOperator.isSome then
              some (true, clearPendingState v, buf)
            else some (false, v, buf)
          else if v.mode = .NORMAL &&
              (key.sequence = [':'] || key.sequence = ['/'] || key.sequence = ['?']) then
            if style = .bashVim && (key.sequence = ['/'] || key.sequence = ['?']) then
              some (false, v, buf)
            else if disableCommandMode then
              some (true, updateMode v .INSERT, bufferInsertVerbatim buf key.sequence)
            else
              some (true, { updateMode v .COMMAND with commandBuffer := key.sequence },
                buf)
          else if isDigit19 key.sequence || (key.sequence = ['0'] && 0 < v.count) then
            some (true, { v with count := v.count * 10 + digitVal key.sequence }, buf)
          else
            let repeatCount := getCurrentCount v
            match key.sequence with
            | ['v'] =>
              if v.mode = .NORMAL then
                some (true, { updateMode v .VISUAL with count := 0 },
                  handleVimAction buf .vim_set_selection_anchor)
              else if v.mode = .VISUAL then
                some (true, { updateMode v .NORMAL with count := 0 },
                  handleVimAction buf .vim_clear_selection)
              else
                some (true, { updateMode v .VISUAL with count := 0 }, buf)
            | ['V'] =>
              if v.mode = .NORMAL then
                some (true, { updateMode v .VISUAL_LINE with count := 0 },
                  handleVimAction buf .vim_set_selection_anchor)
              else if v.mode = .VISUAL_LINE then
                some (true, { updateMode v .NORMAL with count := 0 },
                  handleVimAction buf .vim_clear_selection)
              else
                some (true, { updateMode v .VISUAL_LINE with count := 0 }, buf)
            | ['h'] =>
              if v.pendingOperator = some .c then some (handleChangeMovement v buf .h)
              else
                some (true, { v with count := 0 },
                  handleVimAction buf (.vim_move_left repeatCount))
            | ['j'] =>
              if style = .bashVim && v.mode = .NORMAL && v.pendingOperator = none then
                some (false, v, buf)
              else if v.pendingOperator = some .c then
                some (handleChangeMovement v buf .j)
              else
                some (true, { v with count := 0 },
                  handleVimAction buf (.vim_move_down repeatCount))
            | ['k'] =>
              if style = .bashVim && v.mode = .NORMAL && v.pendingOperator = none then
                some (false, v, buf)
              else if v.pendingOperator = some .c then
                some (handleChangeMovement v buf .k)
              else
                some (true, { v with count := 0 },
                  handleVimAction buf (.vim_move_up repeatCount))
            | ['l'] =>
              if v.pendingOperator = some .c then some (handleChangeMovement v buf .l)
              else
                some (true, { v with count := 0 },
                  handleVimAction buf (.vim_move_right repeatCount))
            | ['w'] =>
              if v.pendingInner && v.pendingOperator = some .d then
                some (true, clearPendingState v,
                  handleVimAction buf (.vim_delete_inner_word repeatCount))
              else if v.pendingInner && v.pendingOperator = some .c then
                some (true, clearPendingState (updateMode v .INSERT),
                  handleVimAction buf (.vim_change_inner_word repeatCount))
              else if v.pendingInner && v.pendingOperator = some .y then
                some (true, clearPendingState v,
                  handleVimAction buf (.vim_yank_inner_word repeatCount))
              else if v.pendingOperator = some .d then
                some (handleOperatorMotion v buf true 'w')
              else if v.pendingOperator = some .c then
                some (handleOperatorMotion v buf false 'w')
              else
                some (true, { v with count := 0 },
                  handleVimAction buf (.vim_move_word_forward repeatCount))
            | ['b'] =>
              if v.pendingOperator = some .d then
                some (handleOperatorMotion v buf true 'b')
              else if v.pendingOperator = some .c then
                some (handleOperatorMotion v buf false 'b')
              else
                some (true, { v with count := 0 },
                  handleVimAction buf (.vim_move_word_backward repeatCount))
            | ['e'] =>
              if v.pendingOperator = some .d then
                some (handleOperatorMotion v buf true 'e')
              else if v.pendingOperator = some .c then
                some (handleOperatorMotion v buf false 'e')
              else
                some (true, { v with count := 0 },
                  handleVimAction buf (.vim_move_word_end repeatCount))
            | ['X'] =>
              some (true, { v with count := 0 },
                handleVimAction buf (.vim_delete_char_before repeatCount))
            | ['x'] =>
              if v.mode = .VISUAL || v.mode = .VISUAL_LINE then
                some (true, { updateMode v .NORMAL with count := 0 },
                  handleVimAction (handleVimAction buf .vim_yank_selection)
                    (.vim_delete_char 1))
              else
                some (true,
                  { v with lastCommand := some (.x, repeatCount), count := 0 },
                  handleVimAction buf (.vim_delete_char repeatCount))
            | ['~'] =>
              some (true, { v with count := 0 },
                handleVimAction buf (.vim_toggle_case repeatCount))
            | ['i'] =>
              if v.pendingOperator.isSome then
                some (true, { v with pendingInner := true }, buf)
              else
                some (true, { updateMode v .INSERT with count := 0 },
                  handleVimAction buf .vim_insert_at_cursor)
            | ['a'] =>
              some (true, { updateMode v .INSERT with count := 0 },
                handleVimAction buf .vim_append_at_cursor)
            | ['o'] =>
              some (true, { updateMode v .INSERT with count := 0 },
                handleVimAction buf .vim_open_line_below)
            | ['O'] =>
              some (true, { updateMode v .INSERT with count := 0 },
                handleVimAction buf .vim_open_line_above)
            | ['0'] =>
              some (true, { v with count := 0 },
                handleVimAction buf .vim_move_to_line_start)
            | ['|'] =>
              some (true, { v with count := 0 },
                handleVimAction buf .vim_move_to_line_start)
            | ['$'] =>
              some (true, { v with count := 0 },
                handleVimAction buf .vim_move_to_line_end)
            | ['^'] =>
              some (true, { v with count := 0 },
                handleVimAction buf .vim_move_to_first_nonwhitespace)
            | ['%'] =>
              some (true, { v with count := 0 },
                handleVimAction buf .vim_move_to_matching_pair)
            | ['g'] =>
              if v.pendingOperator = some .g then
                some (true, { v with pendingOperator := none, count := 0 },
                  handleVimAction buf .vim_move_to_first_line)
              else
                some (true, { v with pendingOperator := some .g, count := 0 }, buf)
            | ['G'] =>
              if style = .bashVim && v.mode = .NORMAL && v.pendingOperator = none then
                some (false, v, buf)
              else if 0 < v.count then
                some (true, { v with count := 0 },
                  handleVimAction buf (.vim_move_to_line v.count))
              else
                some (true, { v with count := 0 },
                  handleVimAction buf .vim_move_to_last_line)
            | ['I'] =>
              some (true, { updateMode v .INSERT with count := 0 },
                handleVimAction buf .vim_insert_at_line_start)
            | ['A'] =>
              some (true, { updateMode v .INSERT with count := 0 },
                handleVimAction buf .vim_append_at_line_end)
            | ['n'] =>
              some (true, { v with count := 0 },
                handleVimAction buf (.vim_search_next .forward))
            | ['N'] =>
              some (true, { v with count := 0 },
                handleVimAction buf (.vim_search_next .backward))
            | ['d'] =>
              if v.mode = .VISUAL || v.mode = .VISUAL_LINE then
                some (true, { updateMode v .NORMAL with count := 0 },
                  handleVimAction (handleVimAction buf .vim_yank_selection)
                    (.vim_delete_char 1))
              else if v.pendingOperator = some .d then
                let r := executeCommand v buf .dd repeatCount
                some (true,
                  { r.2.1 with lastCommand := some (.dd, repeatCount), count := 0,
                               pendingOperator := none }, r.2.2)
              else
                some (true, { v with pendingOperator := some .d }, buf)
            | ['c'] =>
              if v.mode = .VISUAL || v.mode = .VISUAL_LINE then
                some (true, { updateMode v .INSERT with count := 0 },
                  handleVimAction (handleVimAction buf .vim_yank_selection)
                    (.vim_delete_char 1))
              else if v.pendingOperator = some .c then
                let r := executeCommand v buf .cc repeatCount
                some (true,
                  { r.2.1 with lastCommand := some (.cc, repeatCount), count := 0,
                               pendingOperator := none }, r.2.2)
              else
                some (true, { v with pendingOperator := some .c }, buf)
            | ['D'] =>
              let r := executeCommand v buf .dEol 1
              some (true,
                { r.2.1 with lastCommand := some (.dEol, 1), count := 0 }, r.2.2)
            | ['C'] =>
              let r := executeCommand v buf .cEol 1
              some (true,
                { r.2.1 with lastCommand := some (.cEol, 1), count := 0 }, r.2.2)
            | ['y'] =>
              if v.mode = .VISUAL || v.mode = .VISUAL_LINE then
                some (true, { updateMode v .NORMAL with count := 0 },
                  handleVimAction (handleVimAction buf .vim_yank_selection)
                    .vim_clear_selection)
              else if v.pendingOperator = some .y then
                let currentLine := lineAt buf.lines buf.cursorRow
                some (true, { v with count := 0, pendingOperator := none },
                  handleVimAction buf (.vim_yank (currentLine ++ ['\n'])))
              else
                some (true, { v with pendingOperator := some .y }, buf)
            | ['p'] =>
              some (true, { v with count := 0 },
                handleVimAction buf (.vim_paste .after))
            | ['P'] =>
              some (true, { v with count := 0 },
                handleVimAction buf (.vim_paste .before))
            | ['u'] =>
              some (true, { v with count := 0 }, undo buf)
            | ['r'] =>
              some (true, { v with pendingReplace := true, count := 0 }, buf)
            | ['f'] =>
              some (true,
                { v with pendingFind := some { char := [], direction := .forward,
                                               ftype := .inclusive }, count := 0 }, buf)
            | ['F'] =>
              some (true,
                { v with pendingFind := some { char := [], direction := .backward,
                                               ftype := .inclusive }, count := 0 }, buf)
            | ['t'] =>
              some (true,
                { v with pendingFind := some { char := [], direction := .forward,
                                               ftype := .exclusive }, count := 0 }, buf)
            | ['T'] =>
              some (true,
                { v with pendingFind := some { char := [], direction := .backward,
                                               ftype := .exclusive }, count := 0 }, buf)
            | [';'] =>
              match v.lastFind with
              | some lf =>
                some (true, { v with count := 0 },
                  handleVimAction buf (.vim_find_char lf.char lf.direction lf.ftype))
              | none => some (false, v, buf)
            | [','] =>
              match v.lastFind with
              | some lf =>
                let newDirection :=
                  match lf.direction with
                  | .forward => Direction.backward
                  | .backward => Direction.forward
                some (true, { v with count := 0 },
                  handleVimAction buf (.vim_find_char lf.char newDirection lf.ftype))
              | none => some (false, v, buf)
            | ['.'] =>
              match v.lastCommand with
              | some cmdData =>
                let r := executeCommand v buf cmdData.1 cmdData.2
                some (true, { r.2.1 with count := 0 }, r.2.2)
              | none => some (true, { v with count := 0 }, buf)
            | _ =>
              if key.name = leftName then
                if v.pendingOperator = some .c then some (handleChangeMovement v buf .h)
                else
                  some (true, { v with count := 0 },
                    handleVimAction buf (.vim_move_left repeatCount))
              else if key.name = downName then
                if v.pendingOperator = some .c then some (handleChangeMovement v buf .j)
                else
                  some (true, { v with count := 0 },
                    handleVimAction buf (.vim_move_down repeatCount))
              else if key.name = upName then
                if v.pendingOperator = some .c then some (handleChangeMovement v buf .k)
                else
                  some (true, { v with count := 0 },
                    handleVimAction buf (.vim_move_up repeatCount))
              else if key.name = rightName then
                if v.pendingOperator = some .c then some (handleChangeMovement v buf .l)
                else
                  some (true, { v with count := 0 },
                    handleVimAction buf (.vim_move_right repeatCount))
              else
                some (true, clearPendingState v, buf)

/-- Run a key sequence through the NORMAL/VISUAL portion of the controller,
threading the controller and buffer states. -/
def runKeysNV (style : VimModeStyle) (disableCommandMode : Bool) :
    VimSt × TextBufferState → List Key → Option (VimSt × TextBufferState)
  | p, [] => some p
  | p, k :: rest =>
    match handleInputNV style disableCommandMode p.1 p.2 k with
    | some r => runKeysNV style disableCommandMode (r.2.1, r.2.2) rest
    | none => none

/-- A plain letter key: name and sequence are the character itself. -/
def letterKey (c : Char) : Key :=
  { name := [c], sequence := [c], ctrl := false, meta := false, shift := false,
    paste := false, insertable := true }

/-! History navigator of `useInputHistory.ts`. -/

/-- State of the history navigator plus the parent input draft that
`onChange` writes to (and that `currentQuery` reads from). -/
structure HistoryState where
  historyIndex : Int
  originalQueryBeforeNav : Str
  draft : Str
deriving Repr, DecidableEq

/-- `navigateUp` of the source.  Returns whether the event was handled
together with the new state. -/
def navigateUp (userMessages : List Str) (isActive : Bool) (h : HistoryState) :
    Bool × HistoryState :=
  if !isActive then (false, h)
  else if userMessages.length = 0 then (false, h)
  else if h.historyIndex = -1 then
    (true, { h with originalQueryBeforeNav := h.draft, historyIndex := 0,
                    draft := userMessages.getD (userMessages.length - 1) [] })
  else if h.historyIndex < (userMessages.length : Int) - 1 then
    let next := h.historyIndex + 1
    (true, { h with historyIndex := next,
                    draft := userMessages.getD (userMessages.length - 1 - next.toNat) [] })
  else (false, h)

/-- `navigateDown` of the source. -/
def navigateDown (userMessages : List Str) (isActive : Bool) (h : HistoryState) :
    Bool × HistoryState :=
  if !isActive then (false, h)
  else if h.historyIndex = -1 then (false, h)
  else
    let next := h.historyIndex - 1
    if next = -1 then
      (true, { h with historyIndex := next, draft := h.originalQueryBeforeNav })
    else
      (true, { h with historyIndex := next,
                      draft := userMessages.getD (userMessages.length - 1 - next.toNat) [] })

/-- Iterate a navigation operation, discarding the handled flags. -/
def navIter (f : HistoryState → Bool × HistoryState) : Nat → HistoryState → HistoryState
  | 0, h => h
  | n + 1, h => navIter f n (f h).2

/-! Confirmation waiter of `confirmation.ts`, modelled as a state machine over
the ordered sequence of bus/abort events observed by the waiter. -/

/-- Outcomes of a tool confirmation (from `tools.ts`). -/
inductive ToolConfirmationOutcome | proceedOnce | proceedAlways | cancel
deriving Repr, DecidableEq

/-- A `ToolConfirmationResponse` message as read by the waiter. -/
structure ToolConfirmationResponse where
  correlationId : Str
  outcome : Option ToolConfirmationOutcome
  confirmed : Bool
  payload : Option Str
deriving Repr, DecidableEq

/-- Result the promise resolves with. -/
structure ConfirmationResult where
  outcome : ToolConfirmationOutcome
  payload : Option Str
deriving Repr, DecidableEq

/-- Outcome resolution of `onResponse`: the explicit outcome if present,
otherwise the legacy `confirmed` fallback. -/
def resolveOutcome (msg : ToolConfirmationResponse) : ToolConfirmationOutcome :=
  msg.outcome.getD (if msg.confirmed then .proceedOnce else .cancel)

/-- Events observable by a waiter, in arrival order: the abort signal firing,
or a confirmation response on the bus. -/
inductive WaiterEvent
  | abortFired
  | response (msg : ToolConfirmationResponse)
deriving Repr, DecidableEq

/-- Settled result of a waiter: rejection with the "Operation cancelled"
error, or resolution with a confirmation result. -/
inductive WaiterResult
  | cancelled
  | resolved (r : ConfirmationResult)
deriving Repr, DecidableEq

/-- State of one waiter: whether its listeners are still subscribed, and the
settled result if any. -/
structure WaiterState where
  subscribed : Bool
  result : Option WaiterResult
deriving Repr, DecidableEq

/-- One event step of the waiter.  `onAbort` and `onResponse` both run
`cleanup` (which unsubscribes both listeners) before settling, so once
unsubscribed no further event has any effect. -/
def waiterStep (corrId : Str) (s : WaiterState) (e : WaiterEvent) : WaiterState :=
  match e with
  | .abortFired =>
    if s.subscribed then { subscribed := false, result := some .cancelled }
    else s
  | .response msg =>
    if s.subscribed && msg.correlationId == corrId then
      { subscribed := false,
        result := some (.resolved { outcome := resolveOutcome msg, payload := msg.payload }) }
    else s

/-- `awaitConfirmation` of the source over an event sequence: an
already-aborted signal rejects immediately (never subscribing); otherwise the
waiter subscribes and processes events in arrival order, returning the settled
result (`none` while still pending). -/
def awaitConfirmation (corrId : Str) (initiallyAborted : Bool)
    (events : List WaiterEvent) : Option WaiterResult :=
  if initiallyAborted then some .cancelled
  else (events.foldl (waiterStep corrId) { subscribed := true, result := none }).result

/-! Definitions used by the claim statements. -/

/-- The buffer invariant of the specification: non-empty lines, row within
bounds, column at most the code-point length of the cursor line. -/
def BufInv (s : TextBufferState) : Prop :=
  s.lines ≠ [] ∧ s.cursorRow < s.lines.length ∧
    s.cursorCol ≤ (lineAt s.lines s.cursorRow).length

instance (s : TextBufferState) : Decidable (BufInv s) := by
  unfold BufInv; infer_instance

/-- The motion actions enumerated by the frame-effect claim. -/
def isMotionAction : VimAction → Bool
  | .vim_move_left _ | .vim_move_right _ | .vim_move_up _ | .vim_move_down _
  | .vim_move_word_forward _ | .vim_move_word_backward _ | .vim_move_word_end _
  | .vim_move_to_line_start | .vim_move_to_line_end
  | .vim_move_to_first_nonwhitespace | .vim_move_to_first_line
  | .vim_move_to_last_line | .vim_move_to_line _
  | .vim_move_to_matching_pair | .vim_find_char _ _ _ => true
  | _ => false

/-- Wrapped forward-scan order of a substring search that begins at the
cursor: the rest of the cursor line, the lines below, then (wrapping around
the end of the buffer) the lines above, and finally the cursor line up to the
cursor position. -/
def specSearchCandidatesForward (lines : List Str) (row col : Nat) : List (Nat × Nat) :=
  (((List.range ((lineAt lines row).length + 1)).drop (col + 1)).map (fun c => (row, c))) ++
    (((List.range lines.length).drop (row + 1)).map
      (fun r => (List.range ((lineAt lines r).length + 1)).map (fun c => (r, c)))).flatten ++
    ((List.range row).map
      (fun r => (List.range ((lineAt lines r).length + 1)).map (fun c => (r, c)))).flatten ++
    ((List.range col).map (fun c => (row, c)))

/-- Specification-level forward search: the first position, in wrapped scan
order from the cursor, at which the query occurs as a substring. -/
def specSearchForward (lines : List Str) (row col : Nat) (q : Str) : Option (Nat × Nat) :=
  (specSearchCandidatesForward lines row col).find?
    (fun p => matchAt (lineAt lines p.1) q p.2)

/-- The string `"foo"`. -/
def fooStr : Str := ['f', 'o', 'o']

/-- The string `"bar"`. -/
def barStr : Str := ['b', 'a', 'r']

/-- Start state of the linewise yank-and-paste scenario. -/
def c7Start : TextBufferState := { initBuffer with lines := [fooStr, barStr] }

/-- A one-line buffer `"ab"` with a stored search query `"b"`, for the search
claims. -/
def c6Buffer : TextBufferState :=
  { initBuffer with lines := [['a', 'b']], lastSearchQuery := ['b'] }

/-- A one-line buffer `"a"` with the cursor at the end of the line (column 1),
where `x` deletes nothing. -/
def c3CexBuffer : TextBufferState := { initBuffer with lines := [['a']] , cursorCol := 1 }

/-- A two-line buffer with the cursor on the last line, where `dd` deletes
only that line. -/
def c2CexBuffer : TextBufferState :=
  { initBuffer with lines := [['a'], ['b']], cursorRow := 1 }

/-- Controller state in VISUAL mode, for the visual-operator claims. -/
def c10Vim : VimSt := { initialVimState with mode := .VISUAL }

/-- Buffer with an active selection from `(0,1)` to the cursor `(1,1)` and a
non-empty previous clipboard. -/
def c10Buffer : TextBufferState :=
  { initBuffer with lines := [fooStr, barStr], cursorRow := 1, cursorCol := 1,
                    selectionAnchor := some (0, 1), clipboard := ['z'] }

/-- A cursor position that is in range for the given lines: the row exists
and the column is at most the line length. -/
def PosOk (lines : List Str) (p : Nat × Nat) : Prop :=
  p.1 < lines.length ∧ p.2 ≤ lineLen lines p.1

/-- An event is irrelevant to a waiter when it is neither the abort signal
nor a response carrying the waiter's correlation ID. -/
def waiterIrrelevant (corrId : Str) : WaiterEvent → Bool
  | .abortFired => false
  | .response msg => !(msg.correlationId == corrId)

/-- No line of the buffer contains a newline character (an auxiliary
invariant used to strengthen the induction for C1). -/
def NoNl (ls : List Str) : Prop := ∀ l ∈ ls, ('\n') ∉ l

/-- The strengthened induction invariant for C1. -/
def FullInv (s : TextBufferState) : Prop := BufInv s ∧ NoNl s.lines

/-! Projection lemmas for the primitive state updates. -/

@[simp] theorem pushUndo_lines (s : TextBufferState) : (pushUndo s).lines = s.lines := rfl

@[simp] theorem pushUndo_cursorRow (s : TextBufferState) :
    (pushUndo s).cursorRow = s.cursorRow := rfl

@[simp] theorem pushUndo_cursorCol (s : TextBufferState) :
    (pushUndo s).cursorCol = s.cursorCol := rfl

@[simp] theorem pushUndo_preferredCol (s : TextBufferState) :
    (pushUndo s).preferredCol = s.preferredCol := rfl

@[simp] theorem pushUndo_selectionAnchor (s : TextBufferState) :
    (pushUndo s).selectionAnchor = s.selectionAnchor := rfl

@[simp] theorem pushUndo_clipboard (s : TextBufferState) :
    (pushUndo s).clipboard = s.clipboard := rfl

@[simp] theorem pushUndo_lastSearchQuery (s : TextBufferState) :
    (pushUndo s).lastSearchQuery = s.lastSearchQuery := rfl

@[simp] theorem replaceRange_clipboard (s : TextBufferState) (a b c d : Nat) (t : Str) :
    (replaceRangeInternal s a b c d t).clipboard = s.clipboard := rfl

@[simp] theorem replaceRange_undoStack (s : TextBufferState) (a b c d : Nat) (t : Str) :
    (replaceRangeInternal s a b c d t).undoStack = s.undoStack := rfl

@[simp] theorem replaceRange_selectionAnchor (s : TextBufferState) (a b c d : Nat)
    (t : Str) : (replaceRangeInternal s a b c d t).selectionAnchor = s.selectionAnchor :=
  rfl

@[simp] theorem replaceRange_lastSearchQuery (s : TextBufferState) (a b c d : Nat)
    (t : Str) : (replaceRangeInternal s a b c d t).lastSearchQuery = s.lastSearchQuery :=
  rfl

theorem vimDeleteCharImpl_clipboard (s : TextBufferState) (n : Nat) :
    (vimDeleteCharImpl s n).clipboard = s.clipboard := by
  unfold vimDeleteCharImpl
  cases h : s.selectionAnchor <;> simp only
  · split <;> simp
  · simp

/-! Claim C9: paste with an empty clipboard is the identity. -/

/-- Claim C9: with an empty clipboard, `paste` in either direction returns
the state unchanged (in particular pushing nothing onto the undo stack). -/
theorem c9_paste_empty_clipboard (s : TextBufferState) (dir : PasteDir)
    (h : s.clipboard = []) : handleVimAction s (.vim_paste dir) = s := by
  simp [handleVimAction, vimPasteImpl, h]

/-- Witness for C9 at a concrete state. -/
theorem c9_paste_empty_clipboard_witness :
    handleVimAction c7Start (.vim_paste .after) = c7Start :=
  c9_paste_empty_clipboard c7Start .after (by decide)

/-! Claim C2: behaviour of `delete_line`. -/

/-- Counterexample for C2 as stated: on `["a", "b"]` with the cursor on the
last line, `delete_line 1` satisfies `n ≥ lines_remaining` (`1 ≥ 1`) yet
leaves `["a"]`, not the single-empty-line state. -/
theorem c2_counterexample :
    c2CexBuffer.lines.length - c2CexBuffer.cursorRow ≤ 1 ∧
    (handleVimAction c2CexBuffer (.vim_delete_line 1)).lines = [['a']] ∧
    (handleVimAction c2CexBuffer (.vim_delete_line 1)).lines ≠ [[]] := by decide

/-- Claim C2 (amended): `delete_line n` collapses to the single-empty-line
state with cursor `(0,0)` when the buffer has one line or when the deletion
covers every line (`min n lines_remaining ≥ lines_count`, which requires the
cursor to be on the first line); and after any `delete_line` the cursor
column is 0. -/
theorem c2_delete_line_amended (s : TextBufferState) (n : Nat) (hne : s.lines ≠ []) :
    ((s.lines.length = 1 ∨ s.lines.length ≤ min n (s.lines.length - s.cursorRow)) →
      (handleVimAction s (.vim_delete_line n)).lines = [[]] ∧
      (handleVimAction s (.vim_delete_line n)).cursorRow = 0 ∧
      (handleVimAction s (.vim_delete_line n)).cursorCol = 0) ∧
    (handleVimAction s (.vim_delete_line n)).cursorCol = 0 := by
  have hlen0 : ¬ s.lines.length = 0 := by
    simpa [List.length_eq_zero] using hne
  constructor
  · intro hb
    simp only [handleVimAction, vimDeleteLineImpl, if_neg hlen0]
    have hcond : (s.lines.length = 1 ||
        s.lines.length ≤ min n (s.lines.length - s.cursorRow) : Bool) = true := by
      rcases hb with hb | hb <;> simp [hb]
    rw [if_pos hcond]
    simp
  · simp only [handleVimAction, vimDeleteLineImpl, if_neg hlen0]
    split <;> simp

/-- Witness for C2's amended theorem: `delete_line 3` on a two-line buffer
with the cursor on the first line yields `[""]` with cursor `(0,0)`. -/
theorem c2_delete_line_amended_witness :
    (handleVimAction { initBuffer with lines := [['a'], ['b']] }
      (.vim_delete_line 3)).lines = [[]] ∧
    (handleVimAction { initBuffer with lines := [['a'], ['b']] }
      (.vim_delete_line 3)).cursorRow = 0 ∧
    (handleVimAction { initBuffer with lines := [['a'], ['b']] }
      (.vim_delete_line 3)).cursorCol = 0 :=
  (c2_delete_line_amended { initBuffer with lines := [['a'], ['b']] } 3
    (by decide)).1 (by decide)

/-! Claim C3: no-op mutations. -/

/-- Counterexample for C3 as stated: `x` at the end of the line leaves the
buffer (and its undo stack) unchanged, but the controller still records
`last_command`, contradicting "does not update `last_command`". -/
theorem c3_counterexample :
    handleInputNV .vimEditor false initialVimState c3CexBuffer (letterKey 'x') =
      some (true, { initialVimState with lastCommand := some (.x, 1) }, c3CexBuffer) ∧
    initialVimState.lastCommand ≠ some (.x, 1) := by decide

/-- Claim C3 (amended): a no-op `delete_char` (cursor at or past the end of
the line, no selection) returns the buffer state unchanged and pushes nothing
onto the undo stack; the controller's NORMAL-mode `x` key nevertheless still
records `last_command`. -/
theorem c3_noop_mutation_amended (s : TextBufferState) (v : VimSt) (n : Nat)
    (style : VimModeStyle) (dc : Bool)
    (hsel : s.selectionAnchor = none)
    (hcol : (lineAt s.lines s.cursorRow).length ≤ s.cursorCol)
    (hm : v.mode = .NORMAL) (hr : v.pendingReplace = false)
    (hf : v.pendingFind = none) (hch : v.pendingChord = false) :
    handleVimAction s (.vim_delete_char n) = s ∧
    handleInputNV style dc v s (letterKey 'x') =
      some (true, { v with lastCommand := some (.x, getCurrentCount v), count := 0 },
        handleVimAction s (.vim_delete_char (getCurrentCount v))) := by
  have hno : handleVimAction s (.vim_delete_char n) = s := by
    simp [handleVimAction, vimDeleteCharImpl, hsel, Nat.not_lt.mpr hcol]
  refine ⟨hno, ?_⟩
  obtain ⟨mode, cb, cnt, pop, pch, prep, pinn, pfnd, lf, lc⟩ := v
  simp only at hm hr hf hch
  subst hm; subst hr; subst hf; subst hch
  rfl

/-- Witness for C3's amended theorem at the concrete end-of-line buffer. -/
theorem c3_noop_mutation_amended_witness :
    handleVimAction c3CexBuffer (.vim_delete_char 1) = c3CexBuffer ∧
    handleInputNV .vimEditor false initialVimState c3CexBuffer (letterKey 'x') =
      some (true,
        { initialVimState with lastCommand := some (.x, getCurrentCount initialVimState),
                               count := 0 },
        handleVimAction c3CexBuffer (.vim_delete_char (getCurrentCount initialVimState))) :=
  c3_noop_mutation_amended c3CexBuffer initialVimState 1 .vimEditor false
    (by decide) (by decide) (by decide) (by decide) (by decide) (by decide)

/-! Claim C7: the linewise yank-and-paste scenario. -/

/-- Claim C7: from `["foo", "bar"]` with cursor `(0,0)` in NORMAL mode, the
keys `y`, `y`, `j`, `p` yield `["foo", "bar", "foo"]`, the linewise yank
having stored `"foo\n"` in the clipboard. -/
theorem c7_linewise_yank_paste :
    (runKeysNV .vimEditor false (initialVimState, c7Start)
      [letterKey 'y', letterKey 'y', letterKey 'j', letterKey 'p']).map
        (fun p => p.2.lines) = some [fooStr, barStr, fooStr] ∧
    (runKeysNV .vimEditor false (initialVimState, c7Start)
      [letterKey 'y', letterKey 'y', letterKey 'j', letterKey 'p']).map
        (fun p => p.2.clipboard) = some (fooStr ++ ['\n']) := by decide

/-! Claim C5: motions change only the cursor and the sticky column. -/

/-- Claim C5: every motion action leaves `lines`, `clipboard`, `undo_stack`,
`selection_anchor` and `last_search_query` unchanged: only the cursor fields
and the sticky `preferred_col` may change. -/
theorem c5_motion_frame (s : TextBufferState) (a : VimAction)
    (h : isMotionAction a = true) :
    (handleVimAction s a).lines = s.lines ∧
    (handleVimAction s a).clipboard = s.clipboard ∧
    (handleVimAction s a).undoStack = s.undoStack ∧
    (handleVimAction s a).selectionAnchor = s.selectionAnchor ∧
    (handleVimAction s a).lastSearchQuery = s.lastSearchQuery := by
  cases a <;> simp only [isMotionAction, Bool.false_eq_true] at h <;>
    simp only [handleVimAction, vimFindCharImpl] <;>
    (try split) <;> simp

/-- Witness for C5 at a concrete motion. -/
theorem c5_motion_frame_witness :
    (handleVimAction c7Start (.vim_move_word_forward 2)).lines = c7Start.lines ∧
    (handleVimAction c7Start (.vim_move_word_forward 2)).clipboard = c7Start.clipboard ∧
    (handleVimAction c7Start (.vim_move_word_forward 2)).undoStack = c7Start.undoStack ∧
    (handleVimAction c7Start (.vim_move_word_forward 2)).selectionAnchor
      = c7Start.selectionAnchor ∧
    (handleVimAction c7Start (.vim_move_word_forward 2)).lastSearchQuery
      = c7Start.lastSearchQuery :=
  c5_motion_frame c7Start (.vim_move_word_forward 2) (by decide)

/-! Claim C10: visual-mode `d`, `c`, `x` yank the selection first. -/

/-- Reduction of the visual-mode `d` key. -/
theorem handleInputNV_visual_d (style : VimModeStyle) (dc : Bool) (v : VimSt)
    (buf : TextBufferState)
    (hm : v.mode = .VISUAL ∨ v.mode = .VISUAL_LINE)
    (hr : v.pendingReplace = false) (hf : v.pendingFind = none)
    (hch : v.pendingChord = false) :
    handleInputNV style dc v buf (letterKey 'd') =
      some (true, { updateMode v .NORMAL with count := 0 },
        handleVimAction (handleVimAction buf .vim_yank_selection) (.vim_delete_char 1)) := by
  obtain ⟨mode, cb, cnt, pop, pch, prep, pinn, pfnd, lf, lc⟩ := v
  simp only at hm hr hf hch
  subst hr; subst hf; subst hch
  rcases hm with hm | hm <;> subst hm <;> rfl

/-- Reduction of the visual-mode `c` key. -/
theorem handleInputNV_visual_c (style : VimModeStyle) (dc : Bool) (v : VimSt)
    (buf : TextBufferState)
    (hm : v.mode = .VISUAL ∨ v.mode = .VISUAL_LINE)
    (hr : v.pendingReplace = false) (hf : v.pendingFind = none)
    (hch : v.pendingChord = false) :
    handleInputNV style dc v buf (letterKey 'c') =
      some (true, { updateMode v .INSERT with count := 0 },
        handleVimAction (handleVimAction buf .vim_yank_selection) (.vim_delete_char 1)) := by
  obtain ⟨mode, cb, cnt, pop, pch, prep, pinn, pfnd, lf, lc⟩ := v
  simp only at hm hr hf hch
  subst hr; subst hf; subst hch
  rcases hm with hm | hm <;> subst hm <;> rfl

/-- Reduction of the visual-mode `x` key. -/
theorem handleInputNV_visual_x (style : VimModeStyle) (dc : Bool) (v : VimSt)
    (buf : TextBufferState)
    (hm : v.mode = .VISUAL ∨ v.mode = .VISUAL_LINE)
    (hr : v.pendingReplace = false) (hf : v.pendingFind = none)
    (hch : v.pendingChord = false) :
    handleInputNV style dc v buf (letterKey 'x') =
      some (true, { updateMode v .NORMAL with count := 0 },
        handleVimAction (handleVimAction buf .vim_yank_selection) (.vim_delete_char 1)) := by
  obtain ⟨mode, cb, cnt, pop, pch, prep, pinn, pfnd, lf, lc⟩ := v
  simp only at hm hr hf hch
  subst hr; subst hf; subst hch
  rcases hm with hm | hm <;> subst hm <;> rfl

/-- Clipboard of the yank-then-delete composition equals the ordered
inclusive selection text of the original buffer. -/
theorem yank_then_delete_clipboard (buf : TextBufferState) (ar ac : Nat)
    (ha : buf.selectionAnchor = some (ar, ac)) :
    (handleVimAction (handleVimAction buf .vim_yank_selection)
      (.vim_delete_char 1)).clipboard =
      (let sel := orderSelection (ar, ac) buf.cursorRow buf.cursorCol
       selectionYankText buf.lines sel.1 sel.2.1 sel.2.2.1 sel.2.2.2) := by
  simp only [handleVimAction, vimDeleteCharImpl_clipboard, ha]

/-- Claim C10: in VISUAL or VISUAL_LINE mode, `d`, `c` and `x` first yank the
inclusive selection `[anchor, cursor]` into the clipboard (overwriting its
previous content) before deleting it. -/
theorem c10_visual_operators_yank_selection (style : VimModeStyle) (dc : Bool)
    (v : VimSt) (buf : TextBufferState) (k : Key) (ar ac : Nat)
    (hm : v.mode = .VISUAL ∨ v.mode = .VISUAL_LINE)
    (hr : v.pendingReplace = false) (hf : v.pendingFind = none)
    (hch : v.pendingChord = false)
    (ha : buf.selectionAnchor = some (ar, ac))
    (hk : k = letterKey 'd' ∨ k = letterKey 'c' ∨ k = letterKey 'x') :
    ∃ p, handleInputNV style dc v buf k = some p ∧
      p.2.2.clipboard =
        (let sel := orderSelection (ar, ac) buf.cursorRow buf.cursorCol
         selectionYankText buf.lines sel.1 sel.2.1 sel.2.2.1 sel.2.2.2) := by
  rcases hk with hk | hk | hk <;> subst hk
  · exact ⟨_, handleInputNV_visual_d style dc v buf hm hr hf hch,
      yank_then_delete_clipboard buf ar ac ha⟩
  · exact ⟨_, handleInputNV_visual_c style dc v buf hm hr hf hch,
      yank_then_delete_clipboard buf ar ac ha⟩
  · exact ⟨_, handleInputNV_visual_x style dc v buf hm hr hf hch,
      yank_then_delete_clipboard buf ar ac ha⟩

/-- Witness for C10 at a concrete visual selection. -/
theorem c10_visual_operators_yank_selection_witness :
    ∃ p, handleInputNV .vimEditor false c10Vim c10Buffer (letterKey 'd') = some p ∧
      p.2.2.clipboard =
        (let sel := orderSelection (0, 1) c10Buffer.cursorRow c10Buffer.cursorCol
         selectionYankText c10Buffer.lines sel.1 sel.2.1 sel.2.2.1 sel.2.2.2) :=
  c10_visual_operators_yank_selection .vimEditor false c10Vim c10Buffer
    (letterKey 'd') 0 1 (Or.inl (by decide)) (by decide) (by decide) (by decide)
    (by decide) (Or.inl rfl)

/-! Claim C4: history navigation round-trip. -/

/-- The last step of an iterated navigation can be peeled off at the end. -/
theorem navIter_succ_last (f : HistoryState → Bool × HistoryState) (n : Nat)
    (h : HistoryState) : navIter f (n + 1) h = (f (navIter f n h)).2 := by
  induction n generalizing h with
  | zero => rfl
  | succ m ih => exact ih (f h).2

/-- Explicit form of `k` successive `navigateUp` steps from the resting state:
the index is `k - 1`, the snapshot holds the original draft, and the draft
shows message `len - k`. -/
theorem navigateUp_iter (msgs : List Str) (d o : Str) (k : Nat) (hk1 : 1 ≤ k)
    (hk : k ≤ msgs.length) :
    navIter (navigateUp msgs true) k ⟨-1, o, d⟩ =
      ⟨(k : Int) - 1, d, msgs.getD (msgs.length - k) []⟩ := by
  induction k with
  | zero => omega
  | succ k ih =>
    rcases Nat.eq_zero_or_pos k with hk0 | hk0
    · subst hk0
      have hlen : msgs.length ≠ 0 := by omega
      simp [navIter, navigateUp, hlen]
    · have ih2 := ih hk0 (by omega)
      rw [navIter_succ_last, ih2]
      have hne : ¬ ((k : Int) - 1 = -1) := by omega
      have hlt : (k : Int) - 1 < (msgs.length : Int) - 1 := by omega
      simp only [navigateUp, Bool.not_true, Bool.false_eq_true, if_false]
      rw [if_neg (by omega : ¬ msgs.length = 0)]
      rw [if_neg hne, if_pos hlt]
      have harith : ((k : Int) - 1 + 1).toNat = k := by omega
      have harith2 : (k : Int) - 1 + 1 = ((k + 1 : Nat) : Int) - 1 := by push_cast; ring
      simp only [harith, harith2]
      have harith3 : msgs.length - 1 - k = msgs.length - (k + 1) := by omega
      simp [harith3]

/-- Explicit form of `j + 1` successive `navigateDown` steps from index `j`:
the navigator returns to rest and the draft is restored from the snapshot. -/
theorem navigateDown_iter (msgs : List Str) (d a : Str) (j : Nat) :
    navIter (navigateDown msgs true) (j + 1) ⟨(j : Int), d, a⟩ = ⟨-1, d, d⟩ := by
  induction j generalizing a with
  | zero => simp [navIter, navigateDown]
  | succ j ih =>
    have step1 : navigateDown msgs true ⟨((j + 1 : Nat) : Int), d, a⟩ =
        (true, ⟨(j : Int), d, msgs.getD (msgs.length - 1 - j) []⟩) := by
      simp only [navigateDown, Bool.not_true, Bool.false_eq_true, if_false]
      rw [if_neg (by omega : ¬ ((j + 1 : Nat) : Int) = -1)]
      rw [if_neg (by omega : ¬ ((j + 1 : Nat) : Int) - 1 = -1)]
      have h1 : ((j + 1 : Nat) : Int) - 1 = (j : Int) := by omega
      have h2 : (((j + 1 : Nat) : Int) - 1).toNat = j := by omega
      simp [h1, h2]
    show navIter (navigateDown msgs true) (j + 1)
      (navigateDown msgs true ⟨((j + 1 : Nat) : Int), d, a⟩).2 = ⟨-1, d, d⟩
    rw [step1]
    exact ih _

/-- Claim C4: for `k ≤ len(user_messages)`, `navigate_up × k` followed by
`navigate_down × k` returns the navigator to rest with the original draft
restored, the snapshot having been captured on the first `navigate_up` and
held unchanged thereafter. -/
theorem c4_history_round_trip (msgs : List Str) (d o : Str) (k : Nat)
    (hk : k ≤ msgs.length) :
    (navIter (navigateDown msgs true) k
        (navIter (navigateUp msgs true) k ⟨-1, o, d⟩)).draft = d ∧
    (navIter (navigateDown msgs true) k
        (navIter (navigateUp msgs true) k ⟨-1, o, d⟩)).historyIndex = -1 ∧
    (∀ j, 1 ≤ j → j ≤ k →
      (navIter (navigateUp msgs true) j ⟨-1, o, d⟩).originalQueryBeforeNav = d) := by
  rcases Nat.eq_zero_or_pos k with hk0 | hk0
  · subst hk0
    refine ⟨rfl, rfl, ?_⟩
    intro j hj1 hj2
    omega
  · obtain ⟨m, rfl⟩ : ∃ m, k = m + 1 := ⟨k - 1, by omega⟩
    rw [navigateUp_iter msgs d o (m + 1) (by omega) hk]
    have hcast : ((m + 1 : Nat) : Int) - 1 = (m : Int) := by push_cast; ring
    rw [hcast]
    refine ⟨?_, ?_, ?_⟩
    · rw [navigateDown_iter]
    · rw [navigateDown_iter]
    · intro j hj1 hj2
      obtain ⟨i, rfl⟩ : ∃ i, j = i + 1 := ⟨j - 1, by omega⟩
      rw [navigateUp_iter msgs d o (i + 1) (by omega) (by omega)]

/-- Witness for C4 at the concrete three-message history of the
specification's scenario 6. -/
theorem c4_history_round_trip_witness :
    (navIter (navigateDown [['o','n','e'], ['t','w','o'], ['s','i','x']] true) 3
        (navIter (navigateUp [['o','n','e'], ['t','w','o'], ['s','i','x']] true) 3
          ⟨-1, [], ['d','r','a','f','t']⟩)).draft = ['d','r','a','f','t'] ∧
    (navIter (navigateDown [['o','n','e'], ['t','w','o'], ['s','i','x']] true) 3
        (navIter (navigateUp [['o','n','e'], ['t','w','o'], ['s','i','x']] true) 3
          ⟨-1, [], ['d','r','a','f','t']⟩)).historyIndex = -1 := by
  have h := c4_history_round_trip [['o','n','e'], ['t','w','o'], ['s','i','x']]
    ['d','r','a','f','t'] [] 3 (by decide)
  exact ⟨h.1, h.2.1⟩

/-! Claim C8: the confirmation waiter. -/

/-- Irrelevant events do not move a pending subscribed waiter. -/
theorem waiter_skip_irrelevant (corrId : Str) (es : List WaiterEvent)
    (h : ∀ e ∈ es, waiterIrrelevant corrId e = true) :
    es.foldl (waiterStep corrId) ⟨true, none⟩ = ⟨true, none⟩ := by
  induction es with
  | nil => rfl
  | cons e rest ih =>
    have hstep : waiterStep corrId ⟨true, none⟩ e = ⟨true, none⟩ := by
      cases e with
      | abortFired => exact absurd (h .abortFired (by simp)) (by simp [waiterIrrelevant])
      | response msg =>
        have hm := h (.response msg) (by simp)
        simp only [waiterIrrelevant, Bool.not_eq_true'] at hm
        simp [waiterStep, hm]
    show rest.foldl (waiterStep corrId) (waiterStep corrId ⟨true, none⟩ e) = ⟨true, none⟩
    rw [hstep]
    exact ih (fun e he => h e (by simp [he]))

/-- A settled (unsubscribed) waiter absorbs every further event: late
responses and late aborts are dropped. -/
theorem waiter_settled_absorbs (corrId : Str) (es : List WaiterEvent)
    (r : Option WaiterResult) :
    es.foldl (waiterStep corrId) ⟨false, r⟩ = ⟨false, r⟩ := by
  induction es with
  | nil => rfl
  | cons e rest ih =>
    have hstep : waiterStep corrId ⟨false, r⟩ e = ⟨false, r⟩ := by
      cases e <;> simp [waiterStep]
    show rest.foldl (waiterStep corrId) (waiterStep corrId ⟨false, r⟩ e) = ⟨false, r⟩
    rw [hstep]; exact ih

/-- Claim C8: `awaitConfirmation` rejects immediately when the signal is
already aborted on entry; resolves with the outcome of the first response
whose correlation ID matches, when no abort precedes it; and rejects with the
cancellation error when the abort fires first — in which case any later
matching response is dropped because the listener was unsubscribed. -/
theorem c8_await_confirmation (corrId : Str) :
    (∀ es, awaitConfirmation corrId true es = some .cancelled) ∧
    (∀ es1 es2 (m : ToolConfirmationResponse),
      (∀ e ∈ es1, waiterIrrelevant corrId e = true) →
      (m.correlationId == corrId) = true →
      awaitConfirmation corrId false (es1 ++ .response m :: es2) =
        some (.resolved { outcome := resolveOutcome m, payload := m.payload })) ∧
    (∀ es1 es2,
      (∀ e ∈ es1, waiterIrrelevant corrId e = true) →
      awaitConfirmation corrId false (es1 ++ .abortFired :: es2) =
        some .cancelled) := by
  refine ⟨fun es => rfl, ?_, ?_⟩
  · intro es1 es2 m h1 hm
    show (((es1 ++ .response m :: es2).foldl (waiterStep corrId)
      ⟨true, none⟩)).result = _
    rw [List.foldl_append, waiter_skip_irrelevant corrId es1 h1]
    show ((es2.foldl (waiterStep corrId) (waiterStep corrId ⟨true, none⟩
      (.response m)))).result = _
    have : waiterStep corrId ⟨true, none⟩ (.response m) =
        ⟨false, some (.resolved { outcome := resolveOutcome m, payload := m.payload })⟩ := by
      simp [waiterStep, hm]
    rw [this, waiter_settled_absorbs]
  · intro es1 es2 h1
    show (((es1 ++ .abortFired :: es2).foldl (waiterStep corrId)
      ⟨true, none⟩)).result = _
    rw [List.foldl_append, waiter_skip_irrelevant corrId es1 h1]
    show ((es2.foldl (waiterStep corrId) (waiterStep corrId ⟨true, none⟩
      .abortFired))).result = _
    have : waiterStep corrId ⟨true, none⟩ .abortFired =
        ⟨false, some .cancelled⟩ := by simp [waiterStep]
    rw [this, waiter_settled_absorbs]

/-- Witness for C8: a cancelled waiter drops the late matching response. -/
theorem c8_await_confirmation_witness :
    awaitConfirmation ['i', 'd'] false
      [.response { correlationId := ['n', 'o'], outcome := none, confirmed := true,
                   payload := none },
       .abortFired,
       .response { correlationId := ['i', 'd'], outcome := none, confirmed := true,
                   payload := none }] = some .cancelled :=
  (c8_await_confirmation ['i', 'd']).2.2
    [.response { correlationId := ['n', 'o'], outcome := none, confirmed := true,
                 payload := none }]
    [.response { correlationId := ['i', 'd'], outcome := none, confirmed := true,
                 payload := none }]
    (by decide)

/-! Claim C1: the buffer invariant holds in every reachable state. -/

theorem splitNl_ne_nil (t : Str) : splitNl t ≠ [] := by
  induction t with
  | nil => simp [splitNl]
  | cons c rest ih =>
    simp only [splitNl]
    split
    · simp
    · split <;> simp

theorem splitNl_noNl (t : Str) : ∀ p ∈ splitNl t, ('\n') ∉ p := by
  induction t with
  | nil => intro p hp; simp [splitNl] at hp; simp [hp]
  | cons c rest ih =>
    intro p hp
    simp only [splitNl] at hp
    by_cases hc : c = '\n'
    · rw [if_pos hc] at hp
      rcases List.mem_cons.mp hp with h | h
      · simp [h]
      · exact ih p h
    · rw [if_neg hc] at hp
      rcases hsp : splitNl rest with _ | ⟨h0, t0⟩
      · exact absurd hsp (splitNl_ne_nil rest)
      · rw [hsp] at hp
        rcases List.mem_cons.mp hp with h | h
        · subst h
          intro hmem
          rcases List.mem_cons.mp hmem with h | h
          · exact hc h.symm
          · exact ih h0 (by simp [hsp]) h
        · exact ih p (by simp [hsp, h])

theorem lineAt_mem_or_nil (ls : List Str) (r : Nat) :
    lineAt ls r ∈ ls ∨ lineAt ls r = [] := by
  by_cases h : r < ls.length
  · left
    unfold lineAt
    rw [List.getD_eq_getElem?_getD, List.getElem?_eq_getElem h]
    exact List.getElem_mem h
  · right
    unfold lineAt
    rw [List.getD_eq_getElem?_getD, List.getElem?_eq_none (by omega)]
    rfl

theorem lineAt_noNl (ls : List Str) (r : Nat) (h : NoNl ls) : ('\n') ∉ lineAt ls r := by
  rcases lineAt_mem_or_nil ls r with hm | hm
  · exact h _ hm
  · simp [hm]

theorem lineLen_pos_lt (ls : List Str) (r : Nat) (h : 0 < lineLen ls r) :
    r < ls.length := by
  by_contra hr
  have : lineAt ls r = [] := by
    unfold lineAt
    rw [List.getD_eq_getElem?_getD, List.getElem?_eq_none (by omega)]
    rfl
  unfold lineLen at h
  rw [this] at h
  simp at h

theorem tailLines_length (suf : Str) (l : List Str) (h : l ≠ []) :
    (tailLines suf l).length = l.length := by
  induction l with
  | nil => exact absurd rfl h
  | cons p rest ih =>
    cases rest with
    | nil => rfl
    | cons q r2 => simpa [tailLines] using ih (by simp)

theorem spliceParts_length (pre suf : Str) (parts : List Str) (h : parts ≠ []) :
    (spliceParts pre suf parts).length = parts.length := by
  cases parts with
  | nil => exact absurd rfl h
  | cons p rest =>
    cases rest with
    | nil => rfl
    | cons q r2 => simpa [spliceParts] using tailLines_length suf (q :: r2) (by simp)

theorem tailLines_noNl (suf : Str) (hsuf : ('\n') ∉ suf) :
    ∀ (l : List Str), (∀ p ∈ l, ('\n') ∉ p) → ∀ x ∈ tailLines suf l, ('\n') ∉ x := by
  intro l
  induction l with
  | nil => intro _ x hx; simp [tailLines] at hx
  | cons p rest ih =>
    intro hl x hx
    cases rest with
    | nil =>
      simp only [tailLines, List.mem_singleton] at hx
      subst hx
      simp only [List.mem_append, not_or]
      exact ⟨hl p (by simp), hsuf⟩
    | cons q r2 =>
      simp only [tailLines, List.mem_cons] at hx
      rcases hx with hx | hx
      · rw [hx]; exact hl p (by simp)
      · exact ih (fun y hy => hl y (List.mem_cons_of_mem p hy)) x hx

theorem spliceParts_noNl (pre suf : Str) (parts : List Str) (hpre : ('\n') ∉ pre)
    (hsuf : ('\n') ∉ suf) (hp : ∀ p ∈ parts, ('\n') ∉ p) :
    ∀ x ∈ spliceParts pre suf parts, ('\n') ∉ x := by
  intro x hx
  cases parts with
  | nil =>
    simp only [spliceParts, List.mem_singleton] at hx
    subst hx
    simp only [List.mem_append, not_or]
    exact ⟨hpre, hsuf⟩
  | cons p rest =>
    cases rest with
    | nil =>
      simp only [spliceParts, List.mem_singleton] at hx
      subst hx
      simp only [List.mem_append, not_or]
      exact ⟨⟨hpre, hp p (by simp)⟩, hsuf⟩
    | cons q r2 =>
      simp only [spliceParts, List.mem_cons] at hx
      rcases hx with hx | hx
      · subst hx
        simp only [List.mem_append, not_or]
        exact ⟨hpre, hp p (by simp)⟩
      · exact tailLines_noNl suf hsuf (q :: r2)
          (fun y hy => hp y (List.mem_cons_of_mem p hy)) x hx

theorem spliceParts_ne_nil (pre suf : Str) (parts : List Str) :
    spliceParts pre suf parts ≠ [] := by
  cases parts with
  | nil => simp [spliceParts]
  | cons p rest => cases rest <;> simp [spliceParts]

/-- Element of a three-part concatenation indexed inside the middle part. -/
theorem getD_middle (A B C : List Str) (k : Nat) (hk : k < B.length) :
    (A ++ B ++ C).getD (A.length + k) [] = B.getD k [] := by
  rw [List.append_assoc]
  rw [List.getD_append_right A (B ++ C) [] (A.length + k) (by omega)]
  have : A.length + k - A.length = k := by omega
  rw [this]
  exact List.getD_append B C [] k hk

/-- Final line of `tailLines`. -/
theorem tailLines_getD_last (suf : Str) (l : List Str) (h : l ≠ []) :
    (tailLines suf l).getD (l.length - 1) [] = l.getLastD [] ++ suf := by
  induction l with
  | nil => exact absurd rfl h
  | cons p rest ih =>
    cases rest with
    | nil => rfl
    | cons q r2 =>
      have := ih (by simp)
      simpa [tailLines, List.getLastD] using this

theorem replaceRangeCore_length (s : TextBufferState) (sR eR sC eC : Nat) (t : Str)
    (hsR : sR ≤ s.lines.length) :
    (replaceRangeCore s sR eR sC eC t).lines.length =
      sR + (splitNl t).length + (s.lines.length - (eR + 1)) := by
  simp only [replaceRangeCore]
  rw [List.length_append, List.length_append,
    spliceParts_length _ _ _ (splitNl_ne_nil t), List.length_take, List.length_drop]
  omega

/-- Cursor column of `replaceRangeCore`, as an equation. -/
theorem replaceRangeCore_cursorCol (s : TextBufferState) (sR eR sC eC : Nat) (t : Str) :
    (replaceRangeCore s sR eR sC eC t).cursorCol =
      (match splitNl t with
       | [] => (((lineAt s.lines sR).take sC) ++ ((lineAt s.lines eR).drop eC)).length
       | [p] => sC + p.length
       | _ :: rest => (rest.getLastD []).length) := rfl

/-- Cursor row of `replaceRangeCore`, as an equation. -/
theorem replaceRangeCore_cursorRow (s : TextBufferState) (sR eR sC eC : Nat) (t : Str) :
    (replaceRangeCore s sR eR sC eC t).cursorRow = sR + ((splitNl t).length - 1) := rfl

/-- The buffer invariant after `replaceRangeCore`, provided the clamped start
position is in range. -/
theorem replaceRangeCore_inv (s : TextBufferState) (sR eR sC eC : Nat) (t : Str)
    (hsR : sR < s.lines.length) (hsC : sC ≤ (lineAt s.lines sR).length) :
    BufInv (replaceRangeCore s sR eR sC eC t) := by
  have hparts : splitNl t ≠ [] := splitNl_ne_nil t
  have hplen : 1 ≤ (splitNl t).length := List.length_pos.mpr hparts
  have hlen := replaceRangeCore_length s sR eR sC eC t (le_of_lt hsR)
  have htake : (s.lines.take sR).length = sR := by
    rw [List.length_take]; omega
  have hpre : ((lineAt s.lines sR).take sC).length = sC := by
    rw [List.length_take]; omega
  refine ⟨?_, ?_, ?_⟩
  · have hpos : 0 < (replaceRangeCore s sR eR sC eC t).lines.length := by
      rw [hlen]; omega
    exact List.length_pos.mp hpos
  · rw [replaceRangeCore_cursorRow, hlen]
    omega
  · have hmid : lineAt (replaceRangeCore s sR eR sC eC t).lines
        (replaceRangeCore s sR eR sC eC t).cursorRow =
        (spliceParts ((lineAt s.lines sR).take sC) ((lineAt s.lines eR).drop eC)
          (splitNl t)).getD ((splitNl t).length - 1) [] := by
      have hmid0 := getD_middle (s.lines.take sR)
        (spliceParts ((lineAt s.lines sR).take sC) ((lineAt s.lines eR).drop eC)
          (splitNl t))
        (s.lines.drop (eR + 1)) ((splitNl t).length - 1)
        (by rw [spliceParts_length _ _ _ hparts]; omega)
      rw [htake] at hmid0
      exact hmid0
    rw [replaceRangeCore_cursorCol, hmid]
    rcases hsp : splitNl t with _ | ⟨p, rest⟩
    · exact absurd hsp hparts
    · rcases rest with _ | ⟨q, r2⟩
      · simp only [spliceParts, List.length_cons, List.length_nil]
        show sC + p.length ≤
          ([(lineAt s.lines sR).take sC ++ p ++ (lineAt s.lines eR).drop eC].getD 0 []).length
        simp only [List.getD_cons_zero, List.length_append, hpre]
        omega
      · simp only []
        show ((q :: r2).getLastD []).length ≤
          ((spliceParts ((lineAt s.lines sR).take sC) ((lineAt s.lines eR).drop eC)
            (p :: q :: r2)).getD ((p :: q :: r2).length - 1) []).length
        have hidx : (p :: q :: r2).length - 1 = r2.length + 1 := by simp
        rw [hidx]
        show ((q :: r2).getLastD []).length ≤
          ((((lineAt s.lines sR).take sC ++ p) :: tailLines ((lineAt s.lines eR).drop eC)
            (q :: r2)).getD (r2.length + 1) []).length
        rw [List.getD_cons_succ]
        have hlast := tailLines_getD_last ((lineAt s.lines eR).drop eC) (q :: r2) (by simp)
        have hidx2 : (q :: r2).length - 1 = r2.length := by simp
        rw [hidx2] at hlast
        rw [hlast, List.length_append]
        omega

theorem replaceRangeCore_noNl (s : TextBufferState) (sR eR sC eC : Nat) (t : Str)
    (h : NoNl s.lines) : NoNl (replaceRangeCore s sR eR sC eC t).lines := by
  intro l hl
  simp only [replaceRangeCore] at hl
  rcases List.mem_append.mp hl with hl | hl
  · rcases List.mem_append.mp hl with hl | hl
    · exact h l (List.mem_of_mem_take hl)
    · refine spliceParts_noNl _ _ _ ?_ ?_ (splitNl_noNl t) l hl
      · intro hmem
        exact lineAt_noNl s.lines sR h (List.mem_of_mem_take hmem)
      · intro hmem
        exact lineAt_noNl s.lines eR h (List.mem_of_mem_drop hmem)
  · exact h l (List.mem_of_mem_drop hl)

/-- The buffer invariant after `replaceRangeInternal` on a non-empty
buffer. -/
theorem replaceRange_inv (s : TextBufferState) (hne : s.lines ≠ [])
    (a b c d : Nat) (t : Str) : BufInv (replaceRangeInternal s a b c d t) := by
  have hL : 1 ≤ s.lines.length := List.length_pos.mpr hne
  unfold replaceRangeInternal
  exact replaceRangeCore_inv s _ _ _ _ t (by omega) (Nat.min_le_right _ _)

theorem replaceRange_noNl (s : TextBufferState) (h : NoNl s.lines)
    (a b c d : Nat) (t : Str) : NoNl (replaceRangeInternal s a b c d t).lines :=
  replaceRangeCore_noNl s _ _ _ _ t h

theorem replaceRange_fullInv (s : TextBufferState) (h : FullInv s)
    (a b c d : Nat) (t : Str) : FullInv (replaceRangeInternal s a b c d t) :=
  ⟨replaceRange_inv s h.1.1 a b c d t, replaceRange_noNl s h.2 a b c d t⟩

theorem mem_colsOfRow (lines : List Str) (r c0 : Nat) (p : Nat × Nat)
    (hp : p ∈ colsOfRow lines r c0) : p.1 = r ∧ p.2 < lineLen lines r := by
  unfold colsOfRow at hp
  rcases List.mem_map.mp hp with ⟨c, hc, hpc⟩
  have hcr : c < lineLen lines r := List.mem_range.mp (List.mem_of_mem_drop hc)
  rw [← hpc]
  exact ⟨rfl, hcr⟩

theorem mem_positionsAfter (lines : List Str) (row col : Nat) (p : Nat × Nat)
    (hp : p ∈ positionsAfter lines row col) :
    p.1 < lines.length ∧ p.2 < lineLen lines p.1 := by
  unfold positionsAfter at hp
  rcases List.mem_append.mp hp with hp | hp
  · obtain ⟨h1, h2⟩ := mem_colsOfRow lines row (col + 1) p hp
    subst h1
    exact ⟨lineLen_pos_lt lines p.1 (by omega), h2⟩
  · rcases List.mem_flatten.mp hp with ⟨l, hl, hpl⟩
    rcases List.mem_map.mp hl with ⟨r, hr, hlr⟩
    have hrL : r < lines.length := List.mem_range.mp (List.mem_of_mem_drop hr)
    rw [← hlr] at hpl
    obtain ⟨h1, h2⟩ := mem_colsOfRow lines r 0 p hpl
    subst h1
    exact ⟨hrL, h2⟩

theorem mem_positionsBefore (lines : List Str) (row col : Nat) (p : Nat × Nat)
    (hp : p ∈ positionsBefore lines row col) :
    p.1 < lines.length ∧ p.2 < lineLen lines p.1 := by
  unfold positionsBefore at hp
  rcases List.mem_append.mp hp with hp | hp
  · rcases List.mem_map.mp hp with ⟨c, hc, hpc⟩
    have hcr : c < min col (lineLen lines row) :=
      List.mem_range.mp (List.mem_reverse.mp hc)
    rw [← hpc]
    constructor
    · show row < lines.length
      exact lineLen_pos_lt lines row (by omega)
    · show c < lineLen lines row
      omega
  · rcases List.mem_flatten.mp hp with ⟨l, hl, hpl⟩
    rcases List.mem_map.mp hl with ⟨r, hr, hlr⟩
    have hrL : r < min row lines.length :=
      List.mem_range.mp (List.mem_reverse.mp hr)
    rw [← hlr] at hpl
    rcases List.mem_map.mp hpl with ⟨c, hc, hpc⟩
    have hcr : c < lineLen lines r := List.mem_range.mp (List.mem_reverse.mp hc)
    rw [← hpc]
    exact ⟨by omega, hcr⟩

theorem findNextWordAcrossLines_bounds (lines : List Str) (row col : Nat) (b : Bool)
    (p : Nat × Nat) (h : findNextWordAcrossLines lines row col b = some p) :
    p.1 < lines.length ∧ p.2 < lineLen lines p.1 :=
  mem_positionsAfter lines row col p (List.mem_of_find?_eq_some h)

theorem findPrevWordAcrossLines_bounds (lines : List Str) (row col : Nat)
    (p : Nat × Nat) (h : findPrevWordAcrossLines lines row col = some p) :
    p.1 < lines.length ∧ p.2 < lineLen lines p.1 :=
  mem_positionsBefore lines row col p (List.mem_of_find?_eq_some h)

theorem findWordEndInLine_bounds (line : Str) (col c : Nat)
    (h : findWordEndInLine line col = some c) : c < line.length :=
  List.mem_range.mp (List.mem_of_mem_drop (List.mem_of_find?_eq_some h))

/-! Loop preservation lemmas for the cursor motions. -/

theorem moveLeftLoop_ok (lines : List Str) (n : Nat) (p : Nat × Nat)
    (h : PosOk lines p) : PosOk lines (moveLeftLoop lines n p) := by
  induction n generalizing p with
  | zero => exact h
  | succ n ih =>
    obtain ⟨r, c⟩ := p
    obtain ⟨h1, h2⟩ := h
    simp only [moveLeftLoop]
    split
    · exact ih (r, c - 1) ⟨h1, by simp at h1 h2 ⊢; omega⟩
    · split
      · refine ih _ ⟨by simp at h1 ⊢; omega, ?_⟩
        simp only
        split <;> simp [lineLen]
      · exact ih (r, c) ⟨h1, h2⟩

theorem skipCombining_le (cps : Str) (fuel c : Nat) (h : c ≤ cps.length - 1) :
    skipCombining cps fuel c ≤ cps.length - 1 := by
  induction fuel generalizing c with
  | zero => exact h
  | succ fuel ih =>
    simp only [skipCombining]
    split
    · rename_i hcond
      simp only [Bool.and_eq_true, decide_eq_true_eq] at hcond
      exact ih (c + 1) (by omega)
    · exact h

theorem moveRightLoop_ok (lines : List Str) (n : Nat) (p : Nat × Nat)
    (h : PosOk lines p) : PosOk lines (moveRightLoop lines n p) := by
  induction n generalizing p with
  | zero => exact h
  | succ n ih =>
    obtain ⟨r, c⟩ := p
    obtain ⟨h1, h2⟩ := h
    simp only [moveRightLoop]
    split
    · split
      · exact ih _ ⟨by simp; omega, by simp⟩
      · exact ih (r, c) ⟨h1, h2⟩
    · split
      · rename_i hlen hc
        refine ih _ ⟨h1, ?_⟩
        simp only [lineLen] at *
        have := skipCombining_le (lineAt lines r) (lineAt lines r).length (c + 1)
          (by omega)
        omega
      · split
        · exact ih _ ⟨by simp; omega, by simp⟩
        · exact ih (r, c) ⟨h1, h2⟩

theorem wordFwdLoop_ok (lines : List Str) (n : Nat) (p : Nat × Nat)
    (h : PosOk lines p) : PosOk lines (wordFwdLoop lines n p) := by
  induction n generalizing p with
  | zero => exact h
  | succ n ih =>
    obtain ⟨r, c⟩ := p
    simp only [wordFwdLoop]
    split
    · rename_i q hq
      obtain ⟨b1, b2⟩ := findNextWordAcrossLines_bounds lines r c true q hq
      exact ih q ⟨b1, le_of_lt b2⟩
    · exact h

theorem wordBackLoop_ok (lines : List Str) (n : Nat) (p : Nat × Nat)
    (h : PosOk lines p) : PosOk lines (wordBackLoop lines n p) := by
  induction n generalizing p with
  | zero => exact h
  | succ n ih =>
    obtain ⟨r, c⟩ := p
    simp only [wordBackLoop]
    split
    · rename_i q hq
      obtain ⟨b1, b2⟩ := findPrevWordAcrossLines_bounds lines r c q hq
      exact ih q ⟨b1, le_of_lt b2⟩
    · exact h

theorem wordEndLoopRest_ok (lines : List Str) (n : Nat) (p : Nat × Nat)
    (h : PosOk lines p) : PosOk lines (wordEndLoopRest lines n p) := by
  induction n generalizing p with
  | zero => exact h
  | succ n ih =>
    obtain ⟨r, c⟩ := p
    simp only [wordEndLoopRest]
    split
    · rename_i q hq
      obtain ⟨b1, b2⟩ := findNextWordAcrossLines_bounds lines r c false q hq
      exact ih q ⟨b1, le_of_lt b2⟩
    · exact h

theorem wordEndTarget_ok (lines : List Str) (row col count : Nat)
    (h : PosOk lines (row, col)) : PosOk lines (wordEndTarget lines row col count) := by
  cases count with
  | zero => exact h
  | succ m =>
    simp only [wordEndTarget]
    split
    · split
      · rename_i q hq
        obtain ⟨b1, b2⟩ := findNextWordAcrossLines_bounds lines row (col + 1) false q hq
        exact wordEndLoopRest_ok lines m q ⟨b1, le_of_lt b2⟩
      · split
        · rename_i q hq
          obtain ⟨b1, b2⟩ := findNextWordAcrossLines_bounds lines row col false q hq
          exact wordEndLoopRest_ok lines m q ⟨b1, le_of_lt b2⟩
        · exact h
    · split
      · rename_i q hq
        obtain ⟨b1, b2⟩ := findNextWordAcrossLines_bounds lines row col false q hq
        exact wordEndLoopRest_ok lines m q ⟨b1, le_of_lt b2⟩
      · exact h

/-! Bounds for the matching-pair scan. -/

theorem scanPairF_inl_lt (openC closeC : Char) (l : List Char) (i d j : Nat)
    (h : scanPairF openC closeC l i d = .inl j) : j < i + l.length := by
  induction l generalizing i d with
  | nil => simp [scanPairF] at h
  | cons ch rest ih =>
    simp only [scanPairF] at h
    split at h
    · have := ih (i + 1) (d + 1) h
      simp only [List.length_cons]
      omega
    · split at h
      · split at h
        · cases h
          simp only [List.length_cons]
          omega
        · have := ih (i + 1) (d - 1) h
          simp only [List.length_cons]
          omega
      · have := ih (i + 1) d h
        simp only [List.length_cons]
        omega

theorem goPairF_bounds (lines : List Str) (openC closeC : Char) (fuel : Nat) :
    ∀ row col depth (p : Nat × Nat), col ≤ lineLen lines row →
      goPairF lines openC closeC fuel row col depth = some p →
      p.1 < lines.length ∧ p.2 < lineLen lines p.1 := by
  induction fuel with
  | zero => intro row col depth p _ h; simp [goPairF] at h
  | succ fuel ih =>
    intro row col depth p hcol h
    simp only [goPairF] at h
    split at h
    · rename_i hrow
      split at h
      · rename_i j hscan
        cases h
        have hj := scanPairF_inl_lt openC closeC ((lineAt lines row).drop col)
          col depth j hscan
        rw [List.length_drop] at hj
        refine ⟨hrow, ?_⟩
        show j < lineLen lines row
        unfold lineLen at hcol ⊢
        omega
      · exact ih (row + 1) 0 _ p (Nat.zero_le _) h
    · cases h

theorem scanPairB_inl_le (closeC openC : Char) (l : List Char) (i d j : Nat)
    (h : scanPairB closeC openC l i d = .inl j) : j ≤ i ∧ l ≠ [] := by
  induction l generalizing i d with
  | nil => simp [scanPairB] at h
  | cons ch rest ih =>
    refine ⟨?_, by simp⟩
    simp only [scanPairB] at h
    split at h
    · have := (ih (i - 1) (d + 1) h).1
      omega
    · split at h
      · split at h
        · cases h; omega
        · have := (ih (i - 1) (d - 1) h).1
          omega
      · have := (ih (i - 1) d h).1
        omega

theorem goPairB_bounds (lines : List Str) (closeC openC : Char) (fuel : Nat) :
    ∀ row colCount depth (p : Nat × Nat), row < lines.length →
      colCount ≤ lineLen lines row →
      goPairB lines closeC openC fuel row colCount depth = some p →
      p.1 < lines.length ∧ p.2 < lineLen lines p.1 := by
  induction fuel with
  | zero => intro row colCount depth p _ _ h; simp [goPairB] at h
  | succ fuel ih =>
    intro row colCount depth p hrow hcc h
    simp only [goPairB] at h
    split at h
    · rename_i j hscan
      cases h
      obtain ⟨hj, hne⟩ := scanPairB_inl_le closeC openC
        (((lineAt lines row).take colCount).reverse) (colCount - 1) depth j hscan
      have hcc1 : 1 ≤ colCount := by
        by_contra hc0
        have : colCount = 0 := by omega
        subst this
        simp at hne
      refine ⟨hrow, ?_⟩
      show j < lineLen lines row
      omega
    · split at h
      · cases h
      · exact ih (row - 1) _ _ p (by omega) le_rfl h

theorem matchPairActiveCol_lt (cps : Str) (col activeCol : Nat)
    (h : matchPairActiveCol cps col = some activeCol) : activeCol < cps.length := by
  unfold matchPairActiveCol at h
  split at h
  · rename_i hcond
    simp only [Bool.and_eq_true, decide_eq_true_eq] at hcond
    cases h
    exact hcond.1
  · exact List.mem_range.mp (List.mem_of_mem_drop (List.mem_of_find?_eq_some h))

theorem findMatchingPair_bounds (lines : List Str) (row col : Nat) (p : Nat × Nat)
    (hrow : row < lines.length) (h : findMatchingPair lines row col = some p) :
    p.1 < lines.length ∧ p.2 < lineLen lines p.1 := by
  unfold findMatchingPair at h
  split at h
  · cases h
  · rename_i activeCol hact
    have hacol : activeCol < (lineAt lines row).length :=
      matchPairActiveCol_lt (lineAt lines row) col activeCol hact
    split at h
    · exact goPairF_bounds lines _ _ _ row (activeCol + 1) 0 p
        (by unfold lineLen; omega) h
    · split at h
      · exact goPairB_bounds lines _ _ _ row activeCol 0 p hrow
          (by unfold lineLen; omega) h
      · cases h

/-! Bounds for the search scan. -/

theorem findSome?_exists_of_eq_some {α β : Type} {l : List α} {f : α → Option β}
    {b : β} (h : l.findSome? f = some b) : ∃ a ∈ l, f a = some b := by
  induction l with
  | nil => simp [List.findSome?] at h
  | cons a rest ih =>
    rw [List.findSome?_cons] at h
    split at h
    · rename_i c hfa
      cases h
      exact ⟨a, by simp, hfa⟩
    · rcases ih h with ⟨x, hx, hfx⟩
      exact ⟨x, by simp [hx], hfx⟩

theorem jsIndexOf_le (line q : Str) (f i : Nat) (h : jsIndexOf line q f = some i) :
    i ≤ line.length := by
  have := List.mem_range.mp (List.mem_of_mem_drop (List.mem_of_find?_eq_some h))
  omega

theorem jsLastIndexOf_le (line q : Str) (f i : Nat)
    (h : jsLastIndexOf line q f = some i) : i ≤ line.length := by
  have := List.mem_range.mp (List.mem_reverse.mp (List.mem_of_find?_eq_some h))
  omega

theorem vimSearchFound_bounds (lines : List Str) (row col : Nat) (q : Str)
    (dir : Direction) (p : Nat × Nat) (hrow : row < lines.length)
    (h : vimSearchFound lines row col q dir = some p) :
    p.1 < lines.length ∧ p.2 ≤ lineLen lines p.1 := by
  cases dir with
  | forward =>
    simp only [vimSearchFound] at h
    split at h
    · rename_i idx hidx
      cases h
      exact ⟨hrow, jsIndexOf_le _ _ _ _ hidx⟩
    · split at h
      · rename_i p2 hfind
        cases h
        rcases findSome?_exists_of_eq_some hfind with ⟨r, hr, hfr⟩
        have hrL : r < lines.length := List.mem_range.mp (List.mem_of_mem_drop hr)
        rcases Option.map_eq_some'.mp hfr with ⟨idx, hidx, hpidx⟩
        rw [← hpidx]
        exact ⟨hrL, jsIndexOf_le _ _ _ _ hidx⟩
      · rcases findSome?_exists_of_eq_some h with ⟨r, hr, hfr⟩
        have hrL : r ≤ row := by
          have := List.mem_range.mp hr
          omega
        split at hfr
        · rename_i idx hidx
          split at hfr
          · cases hfr
            exact ⟨by omega, jsIndexOf_le _ _ _ _ hidx⟩
          · cases hfr
        · cases hfr
  | backward =>
    simp only [vimSearchFound] at h
    split at h
    · rename_i idx hidx
      cases h
      exact ⟨hrow, jsLastIndexOf_le _ _ _ _ hidx⟩
    · split at h
      · rename_i p2 hfind
        cases h
        rcases findSome?_exists_of_eq_some hfind with ⟨r, hr, hfr⟩
        have hrL : r < row := List.mem_range.mp (List.mem_reverse.mp hr)
        rcases Option.map_eq_some'.mp hfr with ⟨idx, hidx, hpidx⟩
        rw [← hpidx]
        exact ⟨by omega, jsLastIndexOf_le _ _ _ _ hidx⟩
      · rcases findSome?_exists_of_eq_some h with ⟨r, hr, hfr⟩
        have hrL : r < lines.length :=
          List.mem_range.mp (List.mem_of_mem_drop (List.mem_reverse.mp hr))
        split at hfr
        · rename_i idx hidx
          split at hfr
          · cases hfr
            exact ⟨hrL, jsLastIndexOf_le _ _ _ _ hidx⟩
          · cases hfr
        · cases hfr

/-! Auxiliary facts about case toggling and newline-free replacement text. -/

theorem charOfNat_toNat_add (n : Nat) (h1 : 65 ≤ n) (h2 : n ≤ 90) :
    (Char.ofNat (n + 32)).toNat = n + 32 := by
  have hv : (n + 32).isValidChar := Or.inl (by omega)
  unfold Char.ofNat
  rw [dif_pos hv]
  unfold Char.ofNatAux
  simp [Char.toNat, UInt32.toNat, BitVec.toNat_ofNatLt]

theorem charOfNat_toNat_sub (n : Nat) (h1 : 97 ≤ n) (h2 : n ≤ 122) :
    (Char.ofNat (n - 32)).toNat = n - 32 := by
  have hv : (n - 32).isValidChar := Or.inl (by omega)
  unfold Char.ofNat
  rw [dif_pos hv]
  unfold Char.ofNatAux
  simp [Char.toNat, UInt32.toNat, BitVec.toNat_ofNatLt]

theorem toggleCaseChar_ne_newline (c : Char) (h : ¬ c = '\n') :
    ¬ toggleCaseChar c = '\n' := by
  unfold toggleCaseChar
  split
  · simp only [Char.toLower]
    split
    · rename_i hr
      intro heq
      have hnat := congrArg Char.toNat heq
      rw [charOfNat_toNat_add c.toNat hr.1 hr.2] at hnat
      have h10 : ('\n').toNat = 10 := rfl
      rw [h10] at hnat
      omega
    · exact h
  · simp only [Char.toUpper]
    split
    · rename_i hr
      intro heq
      have hnat := congrArg Char.toNat heq
      rw [charOfNat_toNat_sub c.toNat hr.1 hr.2] at hnat
      have h10 : ('\n').toNat = 10 := rfl
      rw [h10] at hnat
      omega
    · exact h

theorem splitNl_eq_single (t : Str) (h : ('\n') ∉ t) : splitNl t = [t] := by
  induction t with
  | nil => rfl
  | cons c rest ih =>
    simp only [List.mem_cons, not_or] at h
    have hc : ¬ c = '\n' := fun hcc => h.1 hcc.symm
    simp only [splitNl, ih h.2, if_neg hc]

/-! Offset/position round trips for the whole-line ranges of
`vim_change_movement`. -/

theorem lineStartOffset_cons (l : Str) (ls : List Str) (r : Nat) :
    lineStartOffset (l :: ls) (r + 1) = l.length + 1 + lineStartOffset ls r := by
  simp [lineStartOffset, List.take_cons]
  try omega

theorem offsetToPos_lineStart (lines : List Str) (r : Nat) (h : r < lines.length) :
    offsetToPos lines (lineStartOffset lines r) = (r, 0) := by
  induction lines generalizing r with
  | nil => simp at h
  | cons l rest ih =>
    cases rest with
    | nil =>
      cases r with
      | zero => simp [offsetToPos, lineStartOffset]
      | succ r' => simp at h
    | cons l2 r2 =>
      cases r with
      | zero =>
        show offsetToPos (l :: l2 :: r2) 0 = (0, 0)
        simp [offsetToPos]
      | succ r' =>
        rw [lineStartOffset_cons]
        show offsetToPos (l :: l2 :: r2) (l.length + 1 + lineStartOffset (l2 :: r2) r') =
          (r' + 1, 0)
        simp only [offsetToPos, if_neg (by omega : ¬ l.length + 1 +
          lineStartOffset (l2 :: r2) r' ≤ l.length)]
        have harg : l.length + 1 + lineStartOffset (l2 :: r2) r' - l.length - 1 =
            lineStartOffset (l2 :: r2) r' := by omega
        rw [harg, ih r' (by simpa using h)]

theorem offsetToPos_lineEnd (lines : List Str) (r : Nat) (h : r < lines.length) :
    offsetToPos lines (lineStartOffset lines r + (lineAt lines r).length) =
      (r, (lineAt lines r).length) := by
  induction lines generalizing r with
  | nil => simp at h
  | cons l rest ih =>
    cases rest with
    | nil =>
      cases r with
      | zero =>
        show offsetToPos [l] (0 + (lineAt [l] 0).length) = (0, (lineAt [l] 0).length)
        have hll : lineAt [l] 0 = l := rfl
        rw [hll]
        simp [offsetToPos, lineStartOffset]
      | succ r' => simp at h
    | cons l2 r2 =>
      cases r with
      | zero =>
        have hl : lineAt (l :: l2 :: r2) 0 = l := rfl
        have h0 : lineStartOffset (l :: l2 :: r2) 0 = 0 := rfl
        rw [hl, h0]
        show offsetToPos (l :: l2 :: r2) (0 + l.length) = (0, l.length)
        simp [offsetToPos]
      | succ r' =>
        have hl : lineAt (l :: l2 :: r2) (r' + 1) = lineAt (l2 :: r2) r' := by
          simp [lineAt]
        rw [hl, lineStartOffset_cons]
        show offsetToPos (l :: l2 :: r2)
          (l.length + 1 + lineStartOffset (l2 :: r2) r' + (lineAt (l2 :: r2) r').length) =
          (r' + 1, (lineAt (l2 :: r2) r').length)
        simp only [offsetToPos, if_neg (by omega : ¬ l.length + 1 +
          lineStartOffset (l2 :: r2) r' + (lineAt (l2 :: r2) r').length ≤ l.length)]
        have harg : l.length + 1 + lineStartOffset (l2 :: r2) r' +
            (lineAt (l2 :: r2) r').length - l.length - 1 =
            lineStartOffset (l2 :: r2) r' + (lineAt (l2 :: r2) r').length := by omega
        rw [harg, ih r' (by simpa using h)]

/-! Preservation of the invariant by each reducer case. -/

theorem pushUndo_fullInv (s : TextBufferState) (h : FullInv s) : FullInv (pushUndo s) :=
  ⟨⟨h.1.1, h.1.2.1, h.1.2.2⟩, h.2⟩

theorem fullInv_set_cursorCol_le (r : TextBufferState) (x : Nat) (h : FullInv r)
    (hx : x ≤ r.cursorCol) : FullInv { r with cursorCol := x } :=
  ⟨⟨h.1.1, h.1.2.1, le_trans hx h.1.2.2⟩, h.2⟩

theorem fullInv_set_anchor (r : TextBufferState) (x : Option (Nat × Nat))
    (h : FullInv r) : FullInv { r with selectionAnchor := x } :=
  ⟨⟨h.1.1, h.1.2.1, h.1.2.2⟩, h.2⟩

theorem vimDeleteWordForwardImpl_fullInv (s : TextBufferState) (count : Nat)
    (h : FullInv s) : FullInv (vimDeleteWordForwardImpl s count) := by
  simp only [vimDeleteWordForwardImpl]
  split
  · exact replaceRange_fullInv _ (pushUndo_fullInv s h) _ _ _ _ _
  · exact h

theorem vimDeleteWordBackwardImpl_fullInv (s : TextBufferState) (count : Nat)
    (h : FullInv s) : FullInv (vimDeleteWordBackwardImpl s count) := by
  simp only [vimDeleteWordBackwardImpl]
  split
  · exact replaceRange_fullInv _ (pushUndo_fullInv s h) _ _ _ _ _
  · exact h

theorem vimDeleteWordEndImpl_fullInv (s : TextBufferState) (count : Nat)
    (h : FullInv s) : FullInv (vimDeleteWordEndImpl s count) := by
  simp only [vimDeleteWordEndImpl]
  split
  · split
    · exact replaceRange_fullInv _ (pushUndo_fullInv s h) _ _ _ _ _
    · exact h
  · split
    · exact replaceRange_fullInv _ (pushUndo_fullInv s h) _ _ _ _ _
    · exact h

theorem vimDeleteLineImpl_fullInv (s : TextBufferState) (count : Nat)
    (h : FullInv s) : FullInv (vimDeleteLineImpl s count) := by
  simp only [vimDeleteLineImpl]
  split
  · exact h
  · rename_i hlen0
    split
    · exact ⟨⟨by simp, by simp, by simp [lineAt]⟩, by intro l hl; simp at hl; simp [hl]⟩
    · rename_i hcond
      simp only [Bool.or_eq_true, decide_eq_true_eq, not_or] at hcond
      simp only [pushUndo_lines]
      have hrow : s.cursorRow < s.lines.length := h.1.2.1
      have hlen : (s.lines.take s.cursorRow ++
          s.lines.drop (s.cursorRow + min count (s.lines.length - s.cursorRow))).length =
          s.lines.length - min count (s.lines.length - s.cursorRow) := by
        rw [List.length_append, List.length_take, List.length_drop]
        omega
      refine ⟨⟨?_, ?_, ?_⟩, ?_⟩
      · show s.lines.take s.cursorRow ++ s.lines.drop _ ≠ []
        apply List.length_pos.mp
        rw [hlen]
        omega
      · show min s.cursorRow _ < (s.lines.take s.cursorRow ++ s.lines.drop _).length
        rw [hlen]
        omega
      · exact Nat.zero_le _
      · intro l hl
        rcases List.mem_append.mp hl with hl | hl
        · exact h.2 l (List.mem_of_mem_take hl)
        · exact h.2 l (List.mem_of_mem_drop hl)

theorem vimChangeLineImpl_fullInv (s : TextBufferState) (count : Nat)
    (h : FullInv s) : FullInv (vimChangeLineImpl s count) := by
  simp only [vimChangeLineImpl]
  split
  · exact h
  · exact replaceRange_fullInv _ (pushUndo_fullInv s h) _ _ _ _ _

theorem vimDeleteToEndOfLineImpl_fullInv (s : TextBufferState) (h : FullInv s) :
    FullInv (vimDeleteToEndOfLineImpl s) := by
  simp only [vimDeleteToEndOfLineImpl]
  split
  · exact replaceRange_fullInv _ (pushUndo_fullInv s h) _ _ _ _ _
  · exact h

theorem vimDeleteToLineStartImpl_fullInv (s : TextBufferState) (h : FullInv s) :
    FullInv (vimDeleteToLineStartImpl s) := by
  simp only [vimDeleteToLineStartImpl]
  split
  · have base := replaceRange_fullInv _ (pushUndo_fullInv s h) s.cursorRow 0
      s.cursorRow s.cursorCol []
    exact ⟨⟨base.1.1, base.1.2.1, Nat.zero_le _⟩, base.2⟩
  · exact h

/-- Positions selected by the whole-line offset round trip. -/
theorem wholeLine_positions (lines : List Str) (startRow ltc : Nat) (h1 : 1 ≤ ltc)
    (h2 : startRow + ltc - 1 < lines.length) :
    getPositionFromOffsets (getLineRangeOffsets startRow ltc lines).1
      (getLineRangeOffsets startRow ltc lines).2 lines =
      (startRow, 0, startRow + ltc - 1, lineLen lines (startRow + ltc - 1)) := by
  unfold getLineRangeOffsets getPositionFromOffsets
  rw [if_neg (by omega : ¬ ltc = 0)]
  simp only [lineLen]
  rw [offsetToPos_lineStart lines startRow (by omega),
    offsetToPos_lineEnd lines (startRow + ltc - 1) h2]

theorem vimChangeMovementImpl_fullInv (s : TextBufferState) (m : Movement)
    (count : Nat) (h : FullInv s) : FullInv (vimChangeMovementImpl s m count) := by
  have hrow : s.cursorRow < s.lines.length := h.1.2.1
  cases m with
  | h => exact replaceRange_fullInv _ (pushUndo_fullInv s h) _ _ _ _ _
  | l => exact replaceRange_fullInv _ (pushUndo_fullInv s h) _ _ _ _ _
  | j =>
    simp only [vimChangeMovementImpl]
    split
    · split
      · exact replaceRange_fullInv _ (pushUndo_fullInv s h) _ _ _ _ _
      · exact replaceRange_fullInv _ (pushUndo_fullInv s h) _ _ _ _ _
    · exact h
  | k =>
    simp only [vimChangeMovementImpl]
    split
    · split
      · exact replaceRange_fullInv _ (pushUndo_fullInv s h) _ _ _ _ _
      · rename_i hup hL1
        have hcnt : 1 ≤ count := by
          rcases Nat.eq_zero_or_pos count with hc | hc
          · subst hc; simp at hup
          · exact hc
        have hsr : s.cursorRow + 1 - count ≤ s.cursorRow := by omega
        have hltc1 : 1 ≤ s.cursorRow - (s.cursorRow + 1 - count) + 1 := by omega
        have hend : (s.cursorRow + 1 - count) +
            (s.cursorRow - (s.cursorRow + 1 - count) + 1) - 1 = s.cursorRow := by omega
        have hpos := wholeLine_positions (pushUndo s).lines (s.cursorRow + 1 - count)
          (s.cursorRow - (s.cursorRow + 1 - count) + 1) hltc1
          (by rw [pushUndo_lines, hend]; exact hrow)
        rw [hend] at hpos
        rw [hpos]
        simp only
        have base := replaceRange_fullInv _ (pushUndo_fullInv s h)
          (s.cursorRow + 1 - count) 0 s.cursorRow (lineLen (pushUndo s).lines s.cursorRow)
          []
        have hsplit : (splitNl ([] : Str)).length = 1 := rfl
        have hlen : (replaceRangeInternal (pushUndo s) (s.cursorRow + 1 - count) 0
            s.cursorRow (lineLen (pushUndo s).lines s.cursorRow) []).lines.length =
            (s.cursorRow + 1 - count) + 1 + (s.lines.length - (s.cursorRow + 1)) := by
          simp only [replaceRangeInternal, pushUndo_lines]
          rw [replaceRangeCore_length _ _ _ _ _ _ (by rw [pushUndo_lines]; omega)]
          rw [hsplit, pushUndo_lines]
          omega
        refine ⟨⟨base.1.1, ?_, Nat.zero_le _⟩, base.2⟩
        show s.cursorRow + 1 - count < _
        rw [hlen]
        omega
    · exact h

theorem vimDeleteCharImpl_fullInv (s : TextBufferState) (count : Nat)
    (h : FullInv s) : FullInv (vimDeleteCharImpl s count) := by
  simp only [vimDeleteCharImpl]
  split
  · exact fullInv_set_anchor _ _ (replaceRange_fullInv _ (pushUndo_fullInv s h) _ _ _ _ _)
  · split
    · exact replaceRange_fullInv _ (pushUndo_fullInv s h) _ _ _ _ _
    · exact h

theorem vimDeleteCharBeforeImpl_fullInv (s : TextBufferState) (count : Nat)
    (h : FullInv s) : FullInv (vimDeleteCharBeforeImpl s count) := by
  simp only [vimDeleteCharBeforeImpl]
  split
  · have hrow : s.cursorRow < s.lines.length := h.1.2.1
    have hcol : s.cursorCol ≤ (lineAt s.lines s.cursorRow).length := h.1.2.2
    have hcc : (replaceRangeInternal (pushUndo s) s.cursorRow
        (s.cursorCol - min count s.cursorCol) s.cursorRow s.cursorCol []).cursorCol =
        s.cursorCol - min count s.cursorCol := by
      unfold replaceRangeInternal
      rw [replaceRangeCore_cursorCol]
      show min (s.cursorCol - min count s.cursorCol)
        (lineAt (pushUndo s).lines
          (min s.cursorRow ((pushUndo s).lines.length - 1))).length + [].length = _
      rw [pushUndo_lines]
      have e1 : min s.cursorRow (s.lines.length - 1) = s.cursorRow := by omega
      rw [e1]
      show min (s.cursorCol - min count s.cursorCol)
        (lineAt s.lines s.cursorRow).length + 0 = _
      omega
    apply fullInv_set_cursorCol_le
    · exact replaceRange_fullInv _ (pushUndo_fullInv s h) _ _ _ _ _
    · rw [hcc]
  · exact h

theorem vimToggleCaseImpl_fullInv (s : TextBufferState) (count : Nat)
    (h : FullInv s) : FullInv (vimToggleCaseImpl s count) := by
  simp only [vimToggleCaseImpl]
  split
  · rename_i hlt
    have hrow : s.cursorRow < s.lines.length := h.1.2.1
    have hnlLine : ('\n') ∉ lineAt s.lines s.cursorRow := lineAt_noNl _ _ h.2
    apply fullInv_set_cursorCol_le
    · exact replaceRange_fullInv _ (pushUndo_fullInv s h) _ _ _ _ _
    · have hnlNew : ('\n') ∉ (((lineAt s.lines s.cursorRow).drop s.cursorCol).take
          (min (s.cursorCol + count) (lineAt s.lines s.cursorRow).length -
            s.cursorCol)).map toggleCaseChar := by
        intro hmem
        rcases List.mem_map.mp hmem with ⟨c, hc, htog⟩
        have hcl : c ∈ lineAt s.lines s.cursorRow :=
          List.mem_of_mem_drop (List.mem_of_mem_take hc)
        exact toggleCaseChar_ne_newline c (fun hce => hnlLine (hce ▸ hcl)) htog
      have hsingle := splitNl_eq_single _ hnlNew
      have hcc : (replaceRangeInternal (pushUndo s) s.cursorRow s.cursorCol s.cursorRow
          (min (s.cursorCol + count) (lineAt s.lines s.cursorRow).length)
          ((((lineAt s.lines s.cursorRow).drop s.cursorCol).take
            (min (s.cursorCol + count) (lineAt s.lines s.cursorRow).length -
              s.cursorCol)).map toggleCaseChar)).cursorCol =
          min (s.cursorCol + count) (lineAt s.lines s.cursorRow).length := by
        simp only [replaceRangeInternal]
        rw [replaceRangeCore_cursorCol, hsingle]
        show min s.cursorCol (lineAt (pushUndo s).lines
            (min s.cursorRow ((pushUndo s).lines.length - 1))).length +
          ((((lineAt s.lines s.cursorRow).drop s.cursorCol).take
            (min (s.cursorCol + count) (lineAt s.lines s.cursorRow).length -
              s.cursorCol)).map toggleCaseChar).length = _
        rw [pushUndo_lines]
        have e1 : min s.cursorRow (s.lines.length - 1) = s.cursorRow := by omega
        rw [e1, List.length_map, List.length_take, List.length_drop]
        omega
      rw [hcc]
      omega
  · exact h

theorem vimPasteImpl_fullInv (s : TextBufferState) (direction : PasteDir)
    (h : FullInv s) : FullInv (vimPasteImpl s direction) := by
  cases direction with
  | after =>
    simp only [vimPasteImpl]
    split
    · exact h
    · split
      · split
        · exact replaceRange_fullInv _ (pushUndo_fullInv s h) _ _ _ _ _
        · exact replaceRange_fullInv _ (pushUndo_fullInv s h) _ _ _ _ _
      · exact replaceRange_fullInv _ (pushUndo_fullInv s h) _ _ _ _ _
  | before =>
    simp only [vimPasteImpl]
    split
    · exact h
    · split
      · exact replaceRange_fullInv _ (pushUndo_fullInv s h) _ _ _ _ _
      · exact replaceRange_fullInv _ (pushUndo_fullInv s h) _ _ _ _ _

theorem vimFindCharImpl_fullInv (s : TextBufferState) (char : Str) (direction : Direction)
    (ftype : FindType) (h : FullInv s) :
    FullInv (vimFindCharImpl s char direction ftype) := by
  simp only [vimFindCharImpl]
  split
  · refine ⟨⟨h.1.1, h.1.2.1, ?_⟩, h.2⟩
    exact le_trans (Nat.min_le_right _ _) (Nat.sub_le _ _)
  · exact h

theorem vimInnerWordImpl_fullInv (s : TextBufferState) (yankOnly : Bool)
    (h : FullInv s) : FullInv (vimInnerWordImpl s yankOnly) := by
  simp only [vimInnerWordImpl]
  split
  · exact h
  · split
    · exact ⟨⟨h.1.1, h.1.2.1, h.1.2.2⟩, h.2⟩
    · exact replaceRange_fullInv _ (pushUndo_fullInv s h) _ _ _ _ _

/-- Every reducer step preserves the strengthened invariant. -/
theorem handleVimAction_fullInv (s : TextBufferState) (a : VimAction)
    (h : FullInv s) : FullInv (handleVimAction s a) := by
  have hrow : s.cursorRow < s.lines.length := h.1.2.1
  have hcol : s.cursorCol ≤ (lineAt s.lines s.cursorRow).length := h.1.2.2
  have hL : 1 ≤ s.lines.length := List.length_pos.mpr h.1.1
  cases a with
  | vim_delete_word_forward count => exact vimDeleteWordForwardImpl_fullInv s count h
  | vim_change_word_forward count => exact vimDeleteWordForwardImpl_fullInv s count h
  | vim_delete_word_backward count => exact vimDeleteWordBackwardImpl_fullInv s count h
  | vim_change_word_backward count => exact vimDeleteWordBackwardImpl_fullInv s count h
  | vim_delete_word_end count => exact vimDeleteWordEndImpl_fullInv s count h
  | vim_change_word_end count => exact vimDeleteWordEndImpl_fullInv s count h
  | vim_delete_line count => exact vimDeleteLineImpl_fullInv s count h
  | vim_change_line count => exact vimChangeLineImpl_fullInv s count h
  | vim_delete_to_end_of_line => exact vimDeleteToEndOfLineImpl_fullInv s h
  | vim_change_to_end_of_line => exact vimDeleteToEndOfLineImpl_fullInv s h
  | vim_delete_to_line_start => exact vimDeleteToLineStartImpl_fullInv s h
  | vim_change_movement m count => exact vimChangeMovementImpl_fullInv s m count h
  | vim_move_left count =>
    have hp := moveLeftLoop_ok s.lines count (s.cursorRow, s.cursorCol) ⟨hrow, hcol⟩
    exact ⟨⟨h.1.1, hp.1, hp.2⟩, h.2⟩
  | vim_move_right count =>
    have hp := moveRightLoop_ok s.lines count (s.cursorRow, s.cursorCol) ⟨hrow, hcol⟩
    exact ⟨⟨h.1.1, hp.1, hp.2⟩, h.2⟩
  | vim_move_up count =>
    refine ⟨⟨h.1.1, ?_, ?_⟩, h.2⟩
    · show s.cursorRow - count < s.lines.length
      omega
    · show min (s.preferredCol.getD s.cursorCol)
        (if 0 < (lineAt s.lines (s.cursorRow - count)).length
         then (lineAt s.lines (s.cursorRow - count)).length - 1 else 0) ≤
        (lineAt s.lines (s.cursorRow - count)).length
      refine le_trans (Nat.min_le_right _ _) ?_
      split <;> omega
  | vim_move_down count =>
    refine ⟨⟨h.1.1, ?_, ?_⟩, h.2⟩
    · show min (s.lines.length - 1) (s.cursorRow + count) < s.lines.length
      omega
    · show min (s.preferredCol.getD s.cursorCol)
        (if 0 < (lineAt s.lines (min (s.lines.length - 1) (s.cursorRow + count))).length
         then (lineAt s.lines (min (s.lines.length - 1) (s.cursorRow + count))).length - 1
         else 0) ≤
        (lineAt s.lines (min (s.lines.length - 1) (s.cursorRow + count))).length
      refine le_trans (Nat.min_le_right _ _) ?_
      split <;> omega
  | vim_move_word_forward count =>
    have hp := wordFwdLoop_ok s.lines count (s.cursorRow, s.cursorCol) ⟨hrow, hcol⟩
    exact ⟨⟨h.1.1, hp.1, hp.2⟩, h.2⟩
  | vim_move_word_backward count =>
    have hp := wordBackLoop_ok s.lines count (s.cursorRow, s.cursorCol) ⟨hrow, hcol⟩
    exact ⟨⟨h.1.1, hp.1, hp.2⟩, h.2⟩
  | vim_move_word_end count =>
    have hp := wordEndTarget_ok s.lines s.cursorRow s.cursorCol count ⟨hrow, hcol⟩
    exact ⟨⟨h.1.1, hp.1, hp.2⟩, h.2⟩
  | vim_delete_char count => exact vimDeleteCharImpl_fullInv s count h
  | vim_delete_char_before count => exact vimDeleteCharBeforeImpl_fullInv s count h
  | vim_toggle_case count => exact vimToggleCaseImpl_fullInv s count h
  | vim_insert_at_cursor => exact h
  | vim_append_at_cursor =>
    refine ⟨⟨h.1.1, hrow, ?_⟩, h.2⟩
    show (if s.cursorCol < (lineAt s.lines s.cursorRow).length then s.cursorCol + 1
      else s.cursorCol) ≤ (lineAt s.lines s.cursorRow).length
    split <;> omega
  | vim_open_line_below => exact replaceRange_fullInv _ (pushUndo_fullInv s h) _ _ _ _ _
  | vim_open_line_above =>
    have base := replaceRange_fullInv _ (pushUndo_fullInv s h) s.cursorRow 0
      s.cursorRow 0 ['\n']
    refine ⟨⟨base.1.1, ?_, Nat.zero_le _⟩, base.2⟩
    have hsplit : (splitNl ['\n']).length = 2 := rfl
    have hlen : (replaceRangeInternal (pushUndo s) s.cursorRow 0 s.cursorRow 0
        ['\n']).lines.length =
        min s.cursorRow (s.lines.length - 1) + 2 +
          (s.lines.length - (min (max s.cursorRow (min s.cursorRow (s.lines.length - 1)))
            (s.lines.length - 1) + 1)) := by
      simp only [replaceRangeInternal]
      rw [replaceRangeCore_length _ _ _ _ _ _ (by rw [pushUndo_lines]; omega)]
      rw [hsplit, pushUndo_lines]
    show s.cursorRow < (replaceRangeInternal (pushUndo s) s.cursorRow 0 s.cursorRow 0
      ['\n']).lines.length
    rw [hlen]
    omega
  | vim_append_at_line_end => exact ⟨⟨h.1.1, hrow, le_of_eq rfl⟩, h.2⟩
  | vim_insert_at_line_start =>
    refine ⟨⟨h.1.1, hrow, ?_⟩, h.2⟩
    exact List.Sublist.length_le (List.takeWhile_sublist _)
  | vim_move_to_line_start => exact ⟨⟨h.1.1, hrow, Nat.zero_le _⟩, h.2⟩
  | vim_move_to_line_end =>
    refine ⟨⟨h.1.1, hrow, ?_⟩, h.2⟩
    have hll : lineLen s.lines s.cursorRow = (lineAt s.lines s.cursorRow).length := rfl
    show (if 0 < lineLen s.lines s.cursorRow then lineLen s.lines s.cursorRow - 1
      else 0) ≤ (lineAt s.lines s.cursorRow).length
    split <;> omega
  | vim_move_to_first_nonwhitespace =>
    refine ⟨⟨h.1.1, hrow, ?_⟩, h.2⟩
    exact List.Sublist.length_le (List.takeWhile_sublist _)
  | vim_move_to_first_line =>
    exact ⟨⟨h.1.1, show (0 : Nat) < s.lines.length by omega, Nat.zero_le _⟩, h.2⟩
  | vim_move_to_last_line =>
    exact ⟨⟨h.1.1, show s.lines.length - 1 < s.lines.length by omega, Nat.zero_le _⟩, h.2⟩
  | vim_move_to_line n =>
    refine ⟨⟨h.1.1, ?_, Nat.zero_le _⟩, h.2⟩
    show min (n - 1) (s.lines.length - 1) < s.lines.length
    omega
  | vim_escape_insert_mode =>
    refine ⟨⟨h.1.1, hrow, ?_⟩, h.2⟩
    show s.cursorCol - 1 ≤ (lineAt s.lines s.cursorRow).length
    omega
  | vim_set_selection_anchor => exact ⟨⟨h.1.1, hrow, hcol⟩, h.2⟩
  | vim_clear_selection => exact ⟨⟨h.1.1, hrow, hcol⟩, h.2⟩
  | vim_search q dir =>
    simp only [handleVimAction]
    cases hf : vimSearchFound s.lines s.cursorRow s.cursorCol q dir with
    | none => exact ⟨⟨h.1.1, hrow, hcol⟩, h.2⟩
    | some p =>
      obtain ⟨fr, fc⟩ := p
      have hb := vimSearchFound_bounds s.lines s.cursorRow s.cursorCol q dir
        (fr, fc) hrow hf
      exact ⟨⟨h.1.1, hb.1, hb.2⟩, h.2⟩
  | vim_search_next dir =>
    simp only [handleVimAction]
    split
    · exact h
    · cases hf : vimSearchFound s.lines s.cursorRow s.cursorCol s.lastSearchQuery dir with
      | none => exact h
      | some p =>
        obtain ⟨fr, fc⟩ := p
        have hb := vimSearchFound_bounds s.lines s.cursorRow s.cursorCol
          s.lastSearchQuery dir (fr, fc) hrow hf
        exact ⟨⟨h.1.1, hb.1, hb.2⟩, h.2⟩
  | vim_yank t => exact ⟨⟨h.1.1, hrow, hcol⟩, h.2⟩
  | vim_yank_selection =>
    simp only [handleVimAction]
    cases hanch : s.selectionAnchor with
    | none => exact h
    | some anchor => exact ⟨⟨h.1.1, hrow, hcol⟩, h.2⟩
  | vim_paste dir => exact vimPasteImpl_fullInv s dir h
  | vim_replace_char ch =>
    simp only [handleVimAction]
    split
    · exact replaceRange_fullInv _ (pushUndo_fullInv s h) _ _ _ _ _
    · exact h
  | vim_find_char ch dir ftype => exact vimFindCharImpl_fullInv s ch dir ftype h
  | vim_move_to_matching_pair =>
    simp only [handleVimAction]
    cases hm : findMatchingPair s.lines s.cursorRow s.cursorCol with
    | none => exact h
    | some p =>
      obtain ⟨mr, mc⟩ := p
      have hb := findMatchingPair_bounds s.lines s.cursorRow s.cursorCol (mr, mc) hrow hm
      exact ⟨⟨h.1.1, hb.1, le_of_lt hb.2⟩, h.2⟩
  | vim_delete_inner_word count => exact vimInnerWordImpl_fullInv s false h
  | vim_change_inner_word count => exact vimInnerWordImpl_fullInv s false h
  | vim_yank_inner_word count => exact vimInnerWordImpl_fullInv s true h

/-- Iterated preservation of the strengthened invariant. -/
theorem foldl_fullInv (acts : List VimAction) :
    ∀ s, FullInv s → FullInv (acts.foldl handleVimAction s) := by
  induction acts with
  | nil => intro s h; exact h
  | cons a rest ih => intro s h; exact ih _ (handleVimAction_fullInv s a h)

/-- Claim C1: every state reachable from the initial buffer `[""]`, cursor
`(0,0)`, by any sequence of `handleVimAction` actions satisfies the buffer
invariant: the lines sequence is non-empty, the cursor row is a valid index,
and the cursor column is at most the code-point length of the cursor line. -/
theorem c1_reachable_invariant (acts : List VimAction) :
    BufInv (acts.foldl handleVimAction initBuffer) :=
  (foldl_fullInv acts initBuffer ⟨⟨by decide, by decide, by decide⟩,
    by intro l hl; simp [initBuffer] at hl; simp [hl]⟩).1

/-! Search: the forward search refines the specification-level wrapped scan. -/

/-- Dropping from a `range` yields a `range'`. -/
theorem drop_range (n m : Nat) : (List.range n).drop m = List.range' m (n - m) := by
  rcases Nat.le_total m n with h | h
  · have h2 : List.range n = List.range m ++ List.range' m (n - m) := by
      rw [List.range_eq_range', List.range_eq_range']
      have h3 := List.range'_append 0 m (n - m) 1
      rw [Nat.zero_add, Nat.one_mul, show n - m + m = n by omega] at h3
      exact h3.symm
    rw [h2, List.drop_left' (List.length_range m)]
  · rw [List.drop_eq_nil_of_le (by simpa using h), show n - m = 0 by omega]
    rfl

/-- A non-empty query does not match at the very end of a line. -/
theorem matchAt_last_false (line q : Str) (hq : q ≠ []) :
    matchAt line q line.length = false := by
  rw [matchAt, List.drop_length]
  cases q with
  | nil => exact absurd rfl hq
  | cons a as => rfl

/-- For a non-empty query, `jsIndexOf` is the first match over the index range
dropped at the raw `from` argument (the `min` clamp is immaterial). -/
theorem jsIndexOf_eq_find_drop (line q : Str) (f : Nat) (hq : q ≠ []) :
    jsIndexOf line q f
      = ((List.range (line.length + 1)).drop f).find? (matchAt line q) := by
  rcases Nat.le_total f line.length with h | h
  · rw [jsIndexOf, Nat.min_eq_left h]
  · rw [jsIndexOf, Nat.min_eq_right h]
    rw [drop_range, drop_range]
    have h1 : line.length + 1 - line.length = 1 := by omega
    rw [h1]
    rcases Nat.lt_or_ge f (line.length + 1) with h2 | h2
    · have hf : f = line.length := by omega
      rw [hf, h1]
    · rw [show line.length + 1 - f = 0 by omega]
      show List.find? _ [line.length] = List.find? _ []
      simp [List.find?, matchAt_last_false line q hq]

/-- The first match over one row block of candidate positions is `jsIndexOf`
from zero on that row. -/
theorem find_row_block (lines : List Str) (q : Str) (r : Nat) :
    ((List.range ((lineAt lines r).length + 1)).map (fun c => (r, c))).find?
        (fun p => matchAt (lineAt lines p.1) q p.2)
      = (jsIndexOf (lineAt lines r) q 0).map (fun idx => (r, idx)) := by
  rw [List.find?_map, jsIndexOf, Nat.zero_min, List.drop_zero]
  rfl

/-- The first match over the flattened blocks of several rows is the row-wise
`findSome?` of `jsIndexOf` from zero. -/
theorem find_flatten_blocks (lines : List Str) (q : Str) (rs : List Nat) :
    ((rs.map (fun r => (List.range ((lineAt lines r).length + 1)).map
        (fun c => (r, c)))).flatten).find? (fun p => matchAt (lineAt lines p.1) q p.2)
      = rs.findSome? (fun r => (jsIndexOf (lineAt lines r) q 0).map
          (fun idx => (r, idx))) := by
  induction rs with
  | nil => rfl
  | cons r rest ih =>
    rw [List.map_cons, List.flatten_cons, List.find?_append, ih, find_row_block,
      List.findSome?_cons]
    cases jsIndexOf (lineAt lines r) q 0 <;> rfl

/-- `findSome?` only depends on the function's values on the list. -/
theorem findSome_congr {α β : Type} (f g : α → Option β) (l : List α)
    (h : ∀ x ∈ l, f x = g x) : l.findSome? f = l.findSome? g := by
  induction l with
  | nil => rfl
  | cons a rest ih =>
    rw [List.findSome?_cons, List.findSome?_cons, h a (by simp)]
    cases g a with
    | some b => rfl
    | none => exact ih (fun x hx => h x (by simp [hx]))

/-- Restricting the first match over `range n` to indices below `k` gives the
first match over `range (min k n)`. -/
theorem find_range_restrict (m : Nat → Bool) (n k : Nat) :
    (match (List.range n).find? m with
      | some i => if i < k then some i else none
      | none => none)
      = (List.range (min k n)).find? m := by
  have hsplit : List.range n = List.range (min k n) ++ (List.range n).drop (min k n) := by
    rw [drop_range]
    rw [List.range_eq_range', List.range_eq_range']
    have h3 := List.range'_append 0 (min k n) (n - min k n) 1
    rw [Nat.zero_add, Nat.one_mul, show n - min k n + min k n = n by omega] at h3
    exact h3.symm
  rw [hsplit, List.find?_append]
  cases hp : (List.range (min k n)).find? m with
  | some i =>
    have hi : i ∈ List.range (min k n) := List.mem_of_find?_eq_some hp
    rw [List.mem_range] at hi
    show (if i < k then some i else none) = some i
    rw [if_pos (by omega)]
  | none =>
    cases hs : ((List.range n).drop (min k n)).find? m with
    | none => rfl
    | some i =>
      have hi : i ∈ (List.range n).drop (min k n) := List.mem_of_find?_eq_some hs
      rw [drop_range, List.mem_range'_1] at hi
      rcases Nat.le_total k n with hkn | hkn
      · show (if i < k then some i else none) = none
        rw [if_neg (by omega)]
      · omega

/-- The code's forward search agrees with the specification-level wrapped
substring scan, for a non-empty query and an in-range cursor column. -/
theorem searchForward_eq_spec (lines : List Str) (row col : Nat) (q : Str)
    (hq : q ≠ []) (hcol : col ≤ lineLen lines row) :
    vimSearchFound lines row col q .forward = specSearchForward lines row col q := by
  rw [specSearchForward, specSearchCandidatesForward]
  rw [List.find?_append, List.find?_append, List.find?_append]
  have hseg1 : (((List.range ((lineAt lines row).length + 1)).drop (col + 1)).map
      (fun c => (row, c))).find? (fun p => matchAt (lineAt lines p.1) q p.2)
      = (jsIndexOf (lineAt lines row) q (col + 1)).map (fun idx => (row, idx)) := by
    rw [List.find?_map, jsIndexOf_eq_find_drop _ _ _ hq]
    rfl
  have hseg2 := find_flatten_blocks lines q ((List.range lines.length).drop (row + 1))
  have hseg3 := find_flatten_blocks lines q (List.range row)
  have hseg4 : ((List.range col).map (fun c => (row, c))).find?
      (fun p => matchAt (lineAt lines p.1) q p.2)
      = ((List.range col).find? (matchAt (lineAt lines row) q)).map
          (fun c => (row, c)) := by
    rw [List.find?_map]
    rfl
  rw [hseg1, hseg2, hseg3, hseg4]
  simp only [vimSearchFound]
  have hwrap : (List.range (row + 1)).findSome? (fun i =>
      match jsIndexOf (lineAt lines i) q 0 with
      | some idx => if i < row || idx < col then some (i, idx) else none
      | none => none)
      = ((List.range row).findSome? (fun r => (jsIndexOf (lineAt lines r) q 0).map
          (fun idx => (r, idx)))).or
        (((List.range col).find? (matchAt (lineAt lines row) q)).map
          (fun c => (row, c))) := by
    rw [List.range_succ, List.findSome?_append]
    congr 1
    · apply findSome_congr
      intro x hx
      rw [List.mem_range] at hx
      cases jsIndexOf (lineAt lines x) q 0 with
      | none => rfl
      | some idx => simp [hx]
    · rw [List.findSome?_cons]
      have h0 : jsIndexOf (lineAt lines row) q 0
          = (List.range ((lineAt lines row).length + 1)).find?
              (matchAt (lineAt lines row) q) := by
        rw [jsIndexOf, Nat.zero_min, List.drop_zero]
      have hres := find_range_restrict (matchAt (lineAt lines row) q)
        ((lineAt lines row).length + 1) col
      rw [Nat.min_eq_left (by rw [lineLen] at hcol; omega)] at hres
      rw [h0]
      cases hfind : (List.range ((lineAt lines row).length + 1)).find?
          (matchAt (lineAt lines row) q) with
      | none =>
        rw [hfind] at hres
        have hres2 : (none : Option Nat) = (List.range col).find?
            (matchAt (lineAt lines row) q) := hres
        rw [← hres2]
        rfl
      | some idx =>
        rw [hfind] at hres
        have hres2 : (if idx < col then some idx else none) = (List.range col).find?
            (matchAt (lineAt lines row) q) := hres
        rw [← hres2]
        by_cases hidx : idx < col
        · simp [hidx]
        · simp [hidx]
  rw [hwrap]
  cases h1 : jsIndexOf (lineAt lines row) q (col + 1) with
  | some idx => rfl
  | none =>
    cases h2 : ((List.range lines.length).drop (row + 1)).findSome?
        (fun i => (jsIndexOf (lineAt lines i) q 0).map (fun idx => (i, idx))) with
    | some p => rfl
    | none =>
      simp

/-- Claim C6: `vim_search` stores the query as `lastSearchQuery`; a forward
search finds exactly the first position, in wrapped scan order from just after
the cursor around the end of the buffer and back to the cursor position, at
which the query occurs as a substring; and `vim_search_next` re-runs the same
search with the stored query whenever one is stored. -/
theorem c6_search (s : TextBufferState) (q : Str) (dir : Direction)
    (hq : q ≠ []) (hcol : s.cursorCol ≤ lineLen s.lines s.cursorRow) :
    (handleVimAction s (.vim_search q dir)).lastSearchQuery = q
    ∧ vimSearchFound s.lines s.cursorRow s.cursorCol q .forward
        = specSearchForward s.lines s.cursorRow s.cursorCol q
    ∧ (s.lastSearchQuery ≠ [] →
        handleVimAction s (.vim_search_next dir)
          = handleVimAction s (.vim_search s.lastSearchQuery dir)) := by
  refine ⟨?_, searchForward_eq_spec _ _ _ _ hq hcol, ?_⟩
  · simp only [handleVimAction]
    cases vimSearchFound s.lines s.cursorRow s.cursorCol q dir with
    | none => rfl
    | some p =>
      obtain ⟨fr, fc⟩ := p
      rfl
  · intro hlsq
    simp only [handleVimAction]
    rw [if_neg hlsq]

/-- Witness for C6 at the concrete buffer `["ab"]` with stored query `"b"`,
searching for `"b"` forward. -/
theorem c6_search_witness :
    (['b'] : Str) ≠ [] ∧
    c6Buffer.cursorCol ≤ lineLen c6Buffer.lines c6Buffer.cursorRow ∧
    ((handleVimAction c6Buffer (.vim_search ['b'] .forward)).lastSearchQuery = ['b']
      ∧ vimSearchFound c6Buffer.lines c6Buffer.cursorRow c6Buffer.cursorCol
          ['b'] .forward
          = specSearchForward c6Buffer.lines c6Buffer.cursorRow c6Buffer.cursorCol ['b']
      ∧ (c6Buffer.lastSearchQuery ≠ [] →
          handleVimAction c6Buffer (.vim_search_next .forward)
            = handleVimAction c6Buffer (.vim_search c6Buffer.lastSearchQuery .forward))) :=
  ⟨by decide, by decide, c6_search c6Buffer ['b'] .forward (by decide) (by decide)⟩

end GCli
